import Mathlib

/-!
Verification of the synapse model-routing library (capability matrix,
routing-signal codec, fuzzy resolver, selector).

Strings are modelled as lists of characters (`Str`); JavaScript numbers
appearing in trusted arithmetic are modelled as rationals, and untrusted
JSON-like inputs are modelled by the `JVal` type below, whose numbers keep
the NaN/Infinity distinction needed by the `Number.isFinite` checks of the
sanitizers.  `Array.prototype.sort` with a consistent comparator is required
by the ECMAScript specification to be a stable sort; it is modelled here by
the structurally recursive stable sort `stableSort`.
-/

/-- JavaScript strings, modelled as lists of characters. -/
abbrev Str := List Char

/-- Embed a Lean string literal as a `Str`. -/
def str (s : String) : Str := s.data

/-- Model of `String.prototype.toLowerCase` (ASCII range). -/
def lowerL (s : Str) : Str := s.map Char.toLower

/-- Whitespace test used by the model of `String.prototype.trim`. -/
def isWs (c : Char) : Bool := c.isWhitespace

/-- Model of `String.prototype.trim`. -/
def trimL (s : Str) : Str :=
  ((s.dropWhile isWs).reverse.dropWhile isWs).reverse

/-- Model of `String.prototype.includes`: `needle` occurs in `hay`. -/
def substrB (needle : Str) : Str → Bool
  | [] => needle.isEmpty
  | c :: t => needle.isPrefixOf (c :: t) || substrB needle t

/-- A stable insertion step: `x` is placed before the first element `y`
with `le x y`.  Elements already in the list came earlier in the original
order, so on ties (`le x y` and `le y x`) `x` is placed first exactly when
it preceded them, which is the case in `stableSort` below. -/
def stableInsert (le : α → α → Bool) (x : α) : List α → List α
  | [] => [x]
  | y :: t => if le x y then x :: y :: t else y :: stableInsert le x t

/-- Stable sort: for a total, transitive `le` this computes the unique
stable order, which is what `Array.prototype.sort` returns for a
consistent comparator `c` with `le a b := c a b ≤ 0`. -/
def stableSort (le : α → α → Bool) : List α → List α
  | [] => []
  | x :: t => stableInsert le x (stableSort le t)

/-! ### Capability matrix (src/matrix.ts) -/

/-- Task types (`types.ts`). -/
inductive TaskType where
  | code | vision | text
deriving DecidableEq

/-- A partial task-type → rational map, the shape of both `ModelRatings`
and `ModelArenaScores` (`Partial<Record<TaskType, number>>`). -/
structure TaskQMap where
  code : Option ℚ
  vision : Option ℚ
  text : Option ℚ
deriving DecidableEq

/-- Field access `ratings[taskType]`. -/
def TaskQMap.get (m : TaskQMap) : TaskType → Option ℚ
  | .code => m.code
  | .vision => m.vision
  | .text => m.text

/-- `ModelRatings` (`types.ts`). -/
abbrev ModelRatings := TaskQMap

/-- `ModelArenaScores` (`types.ts`). -/
abbrev ModelArenaScores := TaskQMap

/-- Ratings literal shorthand. -/
def R (c v t : Option ℚ) : TaskQMap := ⟨c, v, t⟩

/-- `ModelMatrixOverrides`: prefix → full replacement rating or removal
marker (`null`, modelled by `none`). -/
abbrev ModelMatrixOverrides := List (Str × Option ModelRatings)

/-- JavaScript plain objects keyed by strings, as ordered association
lists (`Object.entries` order).  A JS object cannot hold duplicate keys. -/
abbrev Obj (α : Type) := List (Str × α)

/-- JS property read `o[k]`, `undefined` modelled as `none`. -/
def objGet (l : Obj α) (k : Str) : Option α :=
  (l.find? (fun p => p.1 == k)).map (·.2)

/-- JS property write `o[k] = v`: updates in place when the key exists,
appends otherwise. -/
def objSet (l : Obj α) (k : Str) (v : α) : Obj α :=
  if l.any (fun p => p.1 == k) then
    l.map (fun p => if p.1 == k then (k, v) else p)
  else l ++ [(k, v)]

/-- JS `delete o[k]`. -/
def objDelete (l : Obj α) (k : Str) : Obj α :=
  l.filter (fun p => !(p.1 == k))

/-- `MODEL_MATRIX` (matrix.ts lines 22–68). -/
def MODEL_MATRIX : Obj ModelRatings := [
  (str "claude-opus-4-6", R (some 5) (some 3) (some 5)),
  (str "claude-opus-4-5", R (some 5) (some 3) (some 5)),
  (str "claude-opus-4-1", R (some 4) (some 3) (some 4)),
  (str "claude-sonnet-4-6", R (some 5) (some 3) (some 4)),
  (str "claude-sonnet-4-5", R (some 4) (some 3) (some 4)),
  (str "claude-haiku-4-5", R (some 3) (some 2) (some 3)),
  (str "gpt-5.2", R (some 4) (some 4) (some 4)),
  (str "gpt-5", R (some 4) (some 4) (some 4)),
  (str "gpt-5.1", R (some 3) (some 4) (some 4)),
  (str "gpt-5.3-codex", R (some 4) none (some 4)),
  (str "gpt-5.3-codex-spark", R (some 2) none (some 2)),
  (str "gpt-5.2-codex", R (some 3) none (some 3)),
  (str "gpt-5.1-codex-max", R (some 4) none (some 4)),
  (str "gpt-5.1-codex", R (some 3) none (some 3)),
  (str "gpt-5.1-codex-mini", R (some 2) none (some 2)),
  (str "gemini-3-pro", R (some 5) (some 5) (some 5)),
  (str "gemini-3-flash", R (some 5) (some 5) (some 5)),
  (str "gemini-2.5-pro", R (some 2) (some 4) (some 4)),
  (str "gemini-2.5-flash", R none (some 4) (some 4)),
  (str "glm-5", R (some 5) none (some 4)),
  (str "glm-4.7", R (some 5) none (some 4)),
  (str "glm-4.6", R (some 3) (some 3) (some 4)),
  (str "deepseek-reasoner", R (some 4) none (some 4)),
  (str "deepseek-chat", R (some 3) none (some 4)),
  (str "minimax-m2.1", R (some 4) none (some 3)),
  (str "minimax-m2", R (some 3) none (some 2)),
  (str "kimi-k2.5", R (some 4) none (some 4)),
  (str "kimi-k2", R (some 3) none (some 4)),
  (str "qwen3-coder", R (some 3) none (some 3)),
  (str "qwen3-max", R none none (some 4)),
  (str "grok-4.1", R (some 2) none (some 5)),
  (str "grok-4", R (some 1) none (some 4)),
  (str "mistral-large-3", R (some 2) none (some 4)),
  (str "devstral-2", R (some 2) none none),
  (str "devstral-medium", R (some 1) none none)]

/-- `MODEL_ARENA_PRIORS` (matrix.ts lines 76–108). -/
def MODEL_ARENA_PRIORS : Obj ModelArenaScores := [
  (str "claude-opus-4-6", R (some 1561) none (some 1505)),
  (str "claude-opus-4-5", R (some 1469) none (some 1467)),
  (str "claude-opus-4-1", R (some 1389) none (some 1446)),
  (str "claude-sonnet-4-6", R (some 1524) none (some 1457)),
  (str "claude-sonnet-4-5", R (some 1386) none (some 1450)),
  (str "claude-haiku-4-5", R (some 1307) none (some 1405)),
  (str "gpt-5.2", R (some 1395) (some 1227) (some 1438)),
  (str "gpt-5.1", R (some 1343) (some 1241) (some 1437)),
  (str "gpt-5.2-codex", R (some 1336) none none),
  (str "gpt-5.1-codex", R (some 1329) none none),
  (str "gpt-5.1-codex-mini", R (some 1243) none none),
  (str "gemini-3-pro", R (some 1444) (some 1288) (some 1486)),
  (str "gemini-3-flash", R (some 1440) (some 1274) (some 1474)),
  (str "gemini-2.5-pro", R (some 1205) (some 1248) (some 1449)),
  (str "gemini-2.5-flash", R none (some 1212) (some 1411)),
  (str "glm-5", R (some 1456) none (some 1452)),
  (str "glm-4.7", R (some 1440) none (some 1441)),
  (str "glm-4.6", R (some 1356) (some 1163) (some 1425)),
  (str "deepseek-reasoner", R (some 1371) none (some 1420)),
  (str "deepseek-chat", R (some 1319) none (some 1419)),
  (str "minimax-m2.1", R (some 1402) none (some 1385)),
  (str "minimax-m2", R (some 1312) none (some 1347)),
  (str "kimi-k2.5", R (some 1439) (some 1250) (some 1450)),
  (str "kimi-k2", R (some 1331) none (some 1429)),
  (str "qwen3-coder", R (some 1282) none (some 1386)),
  (str "qwen3-max", R none none (some 1425)),
  (str "grok-4.1", R (some 1204) none (some 1463)),
  (str "grok-4", R (some 1153) (some 1182) (some 1410)),
  (str "mistral-large-3", R (some 1223) none (some 1414)),
  (str "devstral-2", R (some 1199) none none),
  (str "devstral-medium", R (some 1099) none none)]

/-- `cloneRatings`: copies the fields present among the valid task types. -/
def cloneRatings (ratings : ModelRatings) : ModelRatings :=
  ⟨ratings.code, ratings.vision, ratings.text⟩

/-- `copyMatrix`: deep clone of a `modelPrefix -> ratings` map. -/
def copyMatrix (matrix : Obj ModelRatings) : Obj ModelRatings :=
  matrix.map (fun p => (p.1, cloneRatings p.2))

/-- `resolveBareModelId`: substring after the last `/`, or the id itself
when it contains no `/`. -/
def resolveBareModelId (modelId : Str) : Str :=
  if modelId.contains '/' then
    ((modelId.reverse.takeWhile (fun c => c != '/')).reverse)
  else modelId

/-- `sortKeysLongestFirst`: stable sort with comparator
`(a, b) => b.length - a.length`, i.e. `a` may stay before `b` exactly when
`b.length - a.length ≤ 0`. -/
def sortKeysLongestFirst (keys : List Str) : List Str :=
  stableSort (fun a b => decide (b.length ≤ a.length)) keys

/-- `applyModelMatrixOverrides`: `null` (`none`) removes a key, an object
replaces the whole rating at that key. -/
def applyModelMatrixOverrides (baseMatrix : Obj ModelRatings)
    (overrides : Option ModelMatrixOverrides) : Obj ModelRatings :=
  let merged := copyMatrix baseMatrix
  match overrides with
  | none => merged
  | some ov =>
    ov.foldl (fun m e =>
      match e.2 with
      | none => objDelete m e.1
      | some override => objSet m e.1 (cloneRatings override)) merged

/-- `cloneArenaScores`. -/
def cloneArenaScores (scores : ModelArenaScores) : ModelArenaScores :=
  ⟨scores.code, scores.vision, scores.text⟩

/-- Matrix used by `createModelRatingsLookup`:
`options?.matrixOverrides ? applyModelMatrixOverrides(MODEL_MATRIX, options.matrixOverrides) : MODEL_MATRIX`. -/
def effectiveMatrix (matrixOverrides : Option ModelMatrixOverrides) : Obj ModelRatings :=
  match matrixOverrides with
  | some _ => applyModelMatrixOverrides MODEL_MATRIX matrixOverrides
  | none => MODEL_MATRIX

/-- `createModelRatingsLookup` applied to a model id.  The final
`return key ? matrix[key] : undefined` makes both a missing key and an
empty-string key produce `undefined` (empty strings are falsy in JS). -/
def createModelRatingsLookup (matrixOverrides : Option ModelMatrixOverrides)
    (modelId : Str) : Option ModelRatings :=
  let matrix := effectiveMatrix matrixOverrides
  let sortedKeys := sortKeysLongestFirst (matrix.map (·.1))
  let bare := resolveBareModelId modelId
  match sortedKeys.find? (fun candidate => candidate.isPrefixOf bare) with
  | some key => if key.isEmpty then none else objGet matrix key
  | none => none

/-- `createModelArenaPriorsLookup` applied to a model id. -/
def createModelArenaPriorsLookup (modelId : Str) : Option ModelArenaScores :=
  let sortedKeys := sortKeysLongestFirst (MODEL_ARENA_PRIORS.map (·.1))
  let bare := resolveBareModelId modelId
  match sortedKeys.find? (fun candidate => candidate.isPrefixOf bare) with
  | some key => if key.isEmpty then none
                else (objGet MODEL_ARENA_PRIORS key).map cloneArenaScores
  | none => none

/-- `getModelRatings` (both the cached base-lookup path and the
fresh-lookup path evaluate `createModelRatingsLookup`). -/
def getModelRatings (modelId : Str)
    (matrixOverrides : Option ModelMatrixOverrides) : Option ModelRatings :=
  createModelRatingsLookup matrixOverrides modelId

/-- `getModelArenaPriors`. -/
def getModelArenaPriors (modelId : Str) : Option ModelArenaScores :=
  createModelArenaPriorsLookup modelId

/-! ### Fuzzy resolver (src/resolver.ts) -/

/-- `CandidateModel` (`types.ts`). -/
structure CandidateModel where
  provider : Str
  id : Str
  name : Str
deriving DecidableEq

/-- `ResolvedModel` (`types.ts`). -/
structure ResolvedModel where
  provider : Str
  id : Str
  displayName : Str
deriving DecidableEq

/-- `toResolved`: display name is `provider/id`. -/
def toResolved (m : CandidateModel) : ResolvedModel :=
  ⟨m.provider, m.id, m.provider ++ '/' :: m.id⟩

/-- `Object.values(ratings).reduce((sum, v) => sum + (v ?? 0), 0)`. -/
def sumRatings (r : ModelRatings) : ℚ :=
  r.code.getD 0 + r.vision.getD 0 + r.text.getD 0

/-- `capabilityScore`: total of the matrix ratings, 0 when unrated. -/
def capabilityScore (id : Str) : ℚ :=
  match getModelRatings id none with
  | none => 0
  | some ratings => sumRatings ratings

/-- Resolver `providerPriority`: `indexOf` position, `Infinity` (`⊤`) when
the provider is not in the preferred list. -/
def providerPriorityR (provider : Str) (preferred : List Str) : WithTop ℕ :=
  match preferred.findIdx? (fun p => p == provider) with
  | some i => (i : WithTop ℕ)
  | none => ⊤

/-- Numeric-aware token of a model id: digit runs become `(0, value)`,
other characters `(1, lowercased code point)`.  Digits sort before
letters and numeric runs compare by value, which models
`localeCompare(…, { numeric: true, sensitivity: "base" })` on the ASCII
alphanumeric ids this library handles. -/
def ntoksAux : List Char → Option ℕ → List (ℕ × ℕ)
  | [], some n => [(0, n)]
  | [], none => []
  | c :: t, acc =>
    if c.isDigit then ntoksAux t (some ((acc.getD 0) * 10 + (c.toNat - 48)))
    else
      match acc with
      | some n => (0, n) :: (1, c.toLower.toNat) :: ntoksAux t none
      | none => (1, c.toLower.toNat) :: ntoksAux t none

/-- Tokenization of a whole id for numeric-aware comparison. -/
def ntoks (s : Str) : List (ℕ × ℕ) := ntoksAux s none

/-- Lexicographic comparison of `(tag, value)` pairs. -/
def cmpPair (a b : ℕ × ℕ) : Ordering :=
  match compare a.1 b.1 with
  | .eq => compare a.2 b.2
  | o => o

/-- Lexicographic comparison of token lists. -/
def cmpToks : List (ℕ × ℕ) → List (ℕ × ℕ) → Ordering
  | [], [] => .eq
  | [], _ :: _ => .lt
  | _ :: _, [] => .gt
  | a :: as, b :: bs =>
    match cmpPair a b with
    | .eq => cmpToks as bs
    | o => o

/-- `compareModelIds`: sign of the numeric-aware collation. -/
def compareModelIds (a b : Str) : Int :=
  match cmpToks (ntoks a) (ntoks b) with
  | .lt => -1
  | .eq => 0
  | .gt => 1

/-- Code-point comparison of strings, modelling JS `>=` on strings. -/
def cmpStr : Str → Str → Ordering
  | [], [] => .eq
  | [], _ :: _ => .lt
  | _ :: _, [] => .gt
  | a :: as, b :: bs =>
    match compare a.toNat b.toNat with
    | .eq => cmpStr as bs
    | o => o

/-- JS string `a >= b`. -/
def strGe (a b : Str) : Bool :=
  match cmpStr a b with
  | .lt => false
  | _ => true

/-- One step of the `pickBestModel` reduction. -/
def pick2 (a b : CandidateModel) : CandidateModel :=
  let aCap := capabilityScore a.id
  let bCap := capabilityScore b.id
  if aCap != bCap then (if aCap > bCap then a else b)
  else if compareModelIds a.id b.id != 0 then
    (if compareModelIds a.id b.id > 0 then a else b)
  else if a.id.length != b.id.length then
    (if a.id.length < b.id.length then a else b)
  else (if strGe a.id b.id then a else b)

/-- `pickBestModel`: `models.reduce(...)`; `none` for the empty list, on
which the JS `reduce` would throw (callers guard against it). -/
def pickBestModel : List CandidateModel → Option CandidateModel
  | [] => none
  | m :: t => some (t.foldl pick2 m)

/-- `pickBest`: best model id first, then preferred provider among the
candidates sharing that id. -/
def pickBest (models : List CandidateModel)
    (preferredProviders : Option (List Str)) : Option CandidateModel :=
  match pickBestModel models with
  | none => none
  | some bestModel =>
    match preferredProviders with
    | none => some bestModel
    | some pp =>
      if pp.length == 0 then some bestModel
      else
        let sameModel := models.filter (fun m => m.id == bestModel.id)
        if sameModel.length ≤ 1 then some bestModel
        else
          match sameModel with
          | [] => some bestModel
          | m :: t =>
            some (t.foldl (fun a b =>
              if providerPriorityR a.provider pp ≤ providerPriorityR b.provider pp
              then a else b) m)

/-- Separator class `[\s\-_.]` used by `tokenize` and `normalize`. -/
def isSepChar (c : Char) : Bool :=
  c.isWhitespace || c == '-' || c == '_' || c == '.'

/-- `normalize`: lowercase and strip all separator characters. -/
def normalizeSeps (s : Str) : Str :=
  (lowerL s).filter (fun c => !isSepChar c)

/-- Regex class `[a-z]` (the input is lowercased first). -/
def isLowerAlpha (c : Char) : Bool := 'a' ≤ c && c ≤ 'z'

/-- Regex class `\d`. -/
def isDigitCh (c : Char) : Bool := c.isDigit

/-- Model of the global replace `s.replace(/(A)(B)/g, "$1 $2")` for the
letter/digit boundary patterns: a space is inserted between adjacent
characters matching the two classes.  (For these patterns the regex
cannot re-match starting at the second character, so the pairwise scan is
exact.) -/
def insertBoundary (isA isB : Char → Bool) : List Char → List Char
  | [] => []
  | [c] => [c]
  | c1 :: c2 :: t =>
    if isA c1 && isB c2 then c1 :: ' ' :: insertBoundary isA isB (c2 :: t)
    else c1 :: insertBoundary isA isB (c2 :: t)

/-- Split on runs of separator characters, dropping empty tokens
(`.split(/[\s\-_.]+/).filter(t => t.length > 0)`). -/
def splitSepsAux : List Char → List Char → List Str
  | [], cur => if cur.isEmpty then [] else [cur.reverse]
  | c :: t, cur =>
    if isSepChar c then
      (if cur.isEmpty then splitSepsAux t [] else cur.reverse :: splitSepsAux t [])
    else splitSepsAux t (c :: cur)

/-- `tokenize`: lowercase, insert letter↔digit boundaries, split on
separators. -/
def tokenize (s : Str) : List Str :=
  splitSepsAux (insertBoundary isDigitCh isLowerAlpha
    (insertBoundary isLowerAlpha isDigitCh (lowerL s))) []

/-- Per-candidate token-overlap score: 2 points for a token found in
`"<id> <name>"`, else 1 point for a token found in the provider name. -/
def tokenScore (queryTokens : List Str) (m : CandidateModel) : ℕ :=
  let idName := lowerL (m.id ++ ' ' :: m.name)
  let providerStr := lowerL m.provider
  queryTokens.foldl (fun score t =>
    if substrB t idName then score + 2
    else if substrB t providerStr then score + 1
    else score) 0

/-- The `bestScore`/`bestMatches` accumulation loop of tier 4 (token
overlap) in `findCandidates`. -/
def tokenLoop (score : CandidateModel → ℕ) :
    List CandidateModel → ℕ → List CandidateModel → ℕ × List CandidateModel
  | [], bestScore, bestMatches => (bestScore, bestMatches)
  | m :: t, bestScore, bestMatches =>
    if score m > bestScore then tokenLoop score t (score m) [m]
    else if score m == bestScore && score m > 0 then
      tokenLoop score t bestScore (bestMatches ++ [m])
    else tokenLoop score t bestScore bestMatches

/-- Tier 1: exact id match. -/
def tierExact (q : Str) (models : List CandidateModel) : List CandidateModel :=
  models.filter (fun m => m.id == q)

/-- Tier 2: case-insensitive id match. -/
def tierCI (qLower : Str) (models : List CandidateModel) : List CandidateModel :=
  models.filter (fun m => lowerL m.id == qLower)

/-- Tier 2.5: separator-stripped id match. -/
def tierNorm (qNorm : Str) (models : List CandidateModel) : List CandidateModel :=
  models.filter (fun m => normalizeSeps m.id == qNorm)

/-- Tier 3: `provider/id` split on the first `/`, both halves
case-insensitively equal. -/
def tierProviderSplit (q : Str) (models : List CandidateModel) : List CandidateModel :=
  if q.contains '/' then
    let provider := lowerL (q.takeWhile (fun c => c != '/'))
    let id := lowerL ((q.dropWhile (fun c => c != '/')).drop 1)
    models.filter (fun m => lowerL m.provider == provider && lowerL m.id == id)
  else []

/-- Tier 5: raw substring match against id or name. -/
def tierSub (qLower : Str) (models : List CandidateModel) : List CandidateModel :=
  models.filter (fun m =>
    substrB qLower (lowerL m.id) || substrB qLower (lowerL m.name))

/-- Tier 6: separator-stripped substring match. -/
def tierNormSub (qNorm : Str) (models : List CandidateModel) : List CandidateModel :=
  models.filter (fun m =>
    substrB qNorm (normalizeSeps m.id) || substrB qNorm (normalizeSeps m.name))

/-- `findCandidates` (resolver.ts lines 178–248): the source's strictly
ordered cascade with early return on the first tier producing a match. -/
def findCandidates (query : Str) (models : List CandidateModel) : List CandidateModel :=
  if models.length == 0 then [] else
  let q := trimL query
  if q.length == 0 then [] else
  let qLower := lowerL q
  let exact := tierExact q models
  if exact.length > 0 then exact else
  let ciMatch := tierCI qLower models
  if ciMatch.length > 0 then ciMatch else
  let qNorm := normalizeSeps q
  let normMatch := tierNorm qNorm models
  if normMatch.length > 0 then normMatch else
  let providerMatch := tierProviderSplit q models
  if providerMatch.length > 0 then providerMatch else
  let queryTokens := tokenize q
  let tokenResult :=
    if queryTokens.length > 0 then tokenLoop (tokenScore queryTokens) models 0 []
    else ((0 : ℕ), ([] : List CandidateModel))
  if tokenResult.1 > 0 && tokenResult.2.length > 0 then tokenResult.2 else
  let subMatches := tierSub qLower models
  if subMatches.length > 0 then subMatches else
  let normFallback := tierNormSub qNorm models
  if normFallback.length > 0 then normFallback else
  []

/-- `resolveModelFuzzy`: cascade then `pickBest`. -/
def resolveModelFuzzy (query : Str) (models : List CandidateModel)
    (preferredProviders : Option (List Str)) : Option ResolvedModel :=
  let candidates := findCandidates query models
  if candidates.length == 0 then none
  else (pickBest candidates preferredProviders).map toResolved

/-- `resolveModelCandidates`: cascade only, all ties preserved. -/
def resolveModelCandidates (query : Str) (models : List CandidateModel) :
    List ResolvedModel :=
  (findCandidates query models).map toResolved

/-- `listAvailableModels`. -/
def listAvailableModels (models : List CandidateModel) : List Str :=
  models.map (fun m => m.provider ++ '/' :: m.id)

/-- Maximum token-overlap score over a candidate list (spec side). -/
def maxScore (score : CandidateModel → ℕ) (models : List CandidateModel) : ℕ :=
  models.foldr (fun m acc => max (score m) acc) 0

/-- Spec-side description of the token-overlap tier: the set of candidates
achieving the strictly maximum positive score. -/
def tierTokenSpec (queryTokens : List Str) (models : List CandidateModel) :
    List CandidateModel :=
  let best := maxScore (tokenScore queryTokens) models
  if 0 < best then models.filter (fun m => tokenScore queryTokens m == best)
  else []

/-- Spec-side cascade: guards for empty query/source, then the complete
match set of the first tier with at least one match. -/
def cascadeSpec (query : Str) (models : List CandidateModel) : List CandidateModel :=
  if models.length == 0 || (trimL query).length == 0 then []
  else
    let q := trimL query
    ([tierExact q models, tierCI (lowerL q) models,
      tierNorm (normalizeSeps q) models, tierProviderSplit q models,
      tierTokenSpec (tokenize q) models, tierSub (lowerL q) models,
      tierNormSub (normalizeSeps q) models].find?
        (fun l => !l.isEmpty)).getD []

/-- Concrete pool for the C3 tier-ordering example. -/
def glmA : CandidateModel := ⟨str "z-ai", str "glm-5", str "GLM 5"⟩

/-- Second pool member, matched only by the raw-substring tier. -/
def glmB : CandidateModel := ⟨str "z-ai", str "a-glm5-b", str "other"⟩

/-- Early-return chain: the first list with at least one element. -/
def firstNonEmptyChain : List (List CandidateModel) → List CandidateModel
  | [] => []
  | t :: rest => if t.length > 0 then t else firstNonEmptyChain rest

/-- The (total pre-)order in which `pick2` prefers its first argument:
higher capability, then numerically greater id, then shorter id, then
JS-string-greater id. -/
def winsPick (a b : CandidateModel) : Prop :=
  capabilityScore b.id < capabilityScore a.id ∨
  (capabilityScore a.id = capabilityScore b.id ∧
    (0 < compareModelIds a.id b.id ∨
      (compareModelIds a.id b.id = 0 ∧
        (a.id.length < b.id.length ∨
          (a.id.length = b.id.length ∧ strGe a.id b.id = true)))))

/-- First candidate of the C8 numeric tie-break example. -/
def m52 : CandidateModel := ⟨str "p1", str "model-5.2-pro", str "M 5.2"⟩

/-- Second candidate of the C8 numeric tie-break example. -/
def m510 : CandidateModel := ⟨str "p2", str "model-5.10-pro", str "M 5.10"⟩

/-! ### Routing signal codec (src/routing-signals.ts) -/

/-- JavaScript numbers: finite values as rationals, plus `NaN` and the
two infinities, so `Number.isFinite` checks are modelled faithfully. -/
inductive JNum where
  | fin (q : ℚ)
  | nan
  | inf
  | ninf
deriving DecidableEq

/-- Untrusted JSON-like JavaScript values (`unknown`). -/
inductive JVal where
  | vundef
  | vnull
  | vbool (b : Bool)
  | vnum (n : JNum)
  | vstr (s : Str)
  | varr (elems : List JVal)
  | vobj (fields : List (Str × JVal))

/-- `isRecord`: a plain object (non-null, non-array). -/
def isRecordJ : JVal → Bool
  | .vobj _ => true
  | _ => false

/-- JS property read on an object, `undefined` when the key is absent. -/
def jget (fields : List (Str × JVal)) (k : Str) : JVal :=
  ((fields.find? (fun p => p.1 == k)).map (·.2)).getD JVal.vundef

/-- `parseFiniteNumber`: a number that passes `Number.isFinite`. -/
def parseFiniteNumber : JVal → Option ℚ
  | .vnum (.fin q) => some q
  | _ => none

/-- `parseNonNegativeNumber`. -/
def parseNonNegativeNumber (v : JVal) : Option ℚ :=
  match parseFiniteNumber v with
  | none => none
  | some q => if q < 0 then none else some q

/-- `parseUnitIntervalNumber`: in `[0, 1]`. -/
def parseUnitIntervalNumber (v : JVal) : Option ℚ :=
  match parseFiniteNumber v with
  | none => none
  | some q => if q < 0 ∨ q > 1 then none else some q

/-- `parseOptionalString`: non-empty after trimming. -/
def parseOptionalString : JVal → Option Str
  | .vstr s =>
    let trimmed := trimL s
    if trimmed.length == 0 then none else some trimmed
  | _ => none

/-- `buildRouteSignalKey`: canonical `provider/modelId`, trimmed and
lowercased. -/
def buildRouteSignalKey (provider modelId : Str) : Str :=
  lowerL (trimL provider) ++ '/' :: lowerL (trimL modelId)

/-- `buildModelSignalKey`. -/
def buildModelSignalKey (modelId : Str) : Str :=
  lowerL (trimL modelId)

/-- `buildProviderModelSignalKey`. -/
def buildProviderModelSignalKey (provider modelId : Str) : Str :=
  buildRouteSignalKey provider modelId

/-- Parsed route-key parts. -/
structure RouteSignalKeyParts where
  provider : Str
  modelId : Str
deriving DecidableEq

/-- Split of a trimmed route key at a separator index (`slice`/`trim`/
`toLowerCase` steps of `parseRouteSignalKey`). -/
def parseRouteSignalKeyAt (trimmed : Str) (separatorIndex : ℕ) :
    Option RouteSignalKeyParts :=
  if separatorIndex = 0 ∨ separatorIndex = trimmed.length - 1 then none else
  let provider := lowerL (trimL (trimmed.take separatorIndex))
  let modelId := lowerL (trimL (trimmed.drop (separatorIndex + 1)))
  if provider.length == 0 || modelId.length == 0 then none
  else some ⟨provider, modelId⟩

/-- `parseRouteSignalKey`: canonical `provider/modelId` or legacy
`provider|modelId`; with both separators present the earliest wins. -/
def parseRouteSignalKey (key : Str) : Option RouteSignalKeyParts :=
  let trimmed := trimL key
  if trimmed.length == 0 then none else
  let slashIndex := trimmed.findIdx? (fun c => c == '/')
  let pipeIndex := trimmed.findIdx? (fun c => c == '|')
  match slashIndex, pipeIndex with
  | none, none => none
  | some i, none => parseRouteSignalKeyAt trimmed i
  | none, some j => parseRouteSignalKeyAt trimmed j
  | some i, some j => parseRouteSignalKeyAt trimmed (min i j)

/-- `RoutingRouteSignal` (`types.ts`): sanitized route telemetry. -/
structure RoutingRouteSignal where
  observedAtMs : ℚ
  errorRate : Option ℚ := none
  fallbackRate : Option ℚ := none
  latencyP50Ms : Option ℚ := none
  latencyP90Ms : Option ℚ := none
  throughputP50Tps : Option ℚ := none
  throughputP90Tps : Option ℚ := none
  uptime : Option ℚ := none
  windowMs : Option ℚ := none
  source : Option Str := none
deriving DecidableEq

/-- `RoutingModelSignal` (`types.ts`). -/
structure RoutingModelSignal where
  observedAtMs : ℚ
  outputTpsMedian : Option ℚ := none
  ttftMedianMs : Option ℚ := none
  source : Option Str := none
deriving DecidableEq

/-- `RoutingSignalsSnapshot` (`types.ts`): absent maps are omitted. -/
structure RoutingSignalsSnapshot where
  generatedAtMs : ℚ
  routes : Option (List (Str × RoutingRouteSignal)) := none
  models : Option (List (Str × RoutingModelSignal)) := none
deriving DecidableEq

/-- `sanitizeRoutingRouteSignal`. -/
def sanitizeRoutingRouteSignal : JVal → Option RoutingRouteSignal
  | .vobj fields =>
    match parseNonNegativeNumber (jget fields (str "observedAtMs")) with
    | none => none
    | some observedAtMs =>
      some {
        observedAtMs := observedAtMs,
        errorRate := parseUnitIntervalNumber (jget fields (str "errorRate")),
        fallbackRate := parseUnitIntervalNumber (jget fields (str "fallbackRate")),
        latencyP50Ms := parseNonNegativeNumber (jget fields (str "latencyP50Ms")),
        latencyP90Ms := parseNonNegativeNumber (jget fields (str "latencyP90Ms")),
        throughputP50Tps := parseNonNegativeNumber (jget fields (str "throughputP50Tps")),
        throughputP90Tps := parseNonNegativeNumber (jget fields (str "throughputP90Tps")),
        uptime := parseUnitIntervalNumber (jget fields (str "uptime")),
        windowMs := parseNonNegativeNumber (jget fields (str "windowMs")),
        source := parseOptionalString (jget fields (str "source")) }
  | _ => none

/-- `sanitizeRoutingModelSignal`. -/
def sanitizeRoutingModelSignal : JVal → Option RoutingModelSignal
  | .vobj fields =>
    match parseNonNegativeNumber (jget fields (str "observedAtMs")) with
    | none => none
    | some observedAtMs =>
      some {
        observedAtMs := observedAtMs,
        outputTpsMedian := parseNonNegativeNumber (jget fields (str "outputTpsMedian")),
        ttftMedianMs := parseNonNegativeNumber (jget fields (str "ttftMedianMs")),
        source := parseOptionalString (jget fields (str "source")) }
  | _ => none

/-- The `routes` reduction of `sanitizeRoutingSignalsSnapshot`. -/
def sanitizeRoutesMap (routeFields : List (Str × JVal)) :
    List (Str × RoutingRouteSignal) :=
  routeFields.foldl (fun acc e =>
    match parseRouteSignalKey e.1 with
    | none => acc
    | some parsedKey =>
      match sanitizeRoutingRouteSignal e.2 with
      | none => acc
      | some sig =>
        objSet acc (buildRouteSignalKey parsedKey.provider parsedKey.modelId) sig) []

/-- The `models` reduction of `sanitizeRoutingSignalsSnapshot`. -/
def sanitizeModelsMap (modelFields : List (Str × JVal)) :
    List (Str × RoutingModelSignal) :=
  modelFields.foldl (fun acc e =>
    let key := lowerL (trimL e.1)
    if key.length == 0 then acc
    else
      match sanitizeRoutingModelSignal e.2 with
      | none => acc
      | some sig => objSet acc key sig) []

/-- `sanitizeRoutingSignalsSnapshot`: requires a record with a finite
non-negative `generatedAtMs`; empty `routes`/`models` maps are omitted. -/
def sanitizeRoutingSignalsSnapshot : JVal → Option RoutingSignalsSnapshot
  | .vobj fields =>
    match parseNonNegativeNumber (jget fields (str "generatedAtMs")) with
    | none => none
    | some generatedAtMs =>
      let routes := match jget fields (str "routes") with
        | .vobj routeFields => some (sanitizeRoutesMap routeFields)
        | _ => none
      let models := match jget fields (str "models") with
        | .vobj modelFields => some (sanitizeModelsMap modelFields)
        | _ => none
      some {
        generatedAtMs := generatedAtMs,
        routes := match routes with
          | some l => if l.length > 0 then some l else none
          | none => none,
        models := match models with
          | some l => if l.length > 0 then some l else none
          | none => none }
  | _ => none

/-- Sanitized constraints of a mode-policy override. -/
structure RoutingModeConstraintsOv where
  maxErrorRate : Option ℚ := none
  maxLatencyP90Ms : Option ℚ := none
  minUptime : Option ℚ := none
deriving DecidableEq

/-- Sanitized weights of a mode-policy override. -/
structure RoutingWeightsOv where
  capability : Option ℚ := none
  cost : Option ℚ := none
  latency : Option ℚ := none
  reliability : Option ℚ := none
  throughput : Option ℚ := none
deriving DecidableEq

/-- `RoutingModePolicyOverride` after sanitization: only present fields. -/
structure RoutingModePolicyOverride where
  complexityBias : Option ℚ := none
  constraints : Option RoutingModeConstraintsOv := none
  taskFloors : Option TaskQMap := none
  weights : Option RoutingWeightsOv := none
deriving DecidableEq

/-- Task-floor validation: finite and in `[1, 5]` (the source checks the
range but not integrality). -/
def parseTaskFloor (v : JVal) : Option ℚ :=
  match parseFiniteNumber v with
  | none => none
  | some f => if 1 ≤ f ∧ f ≤ 5 then some f else none

/-- The `constraints` block of `sanitizeRoutingModePolicyOverride`,
`none` when no valid field remains. -/
def parseConstraintsOv (v : JVal) : Option RoutingModeConstraintsOv :=
  match v with
  | .vobj cf =>
    let c : RoutingModeConstraintsOv := {
      maxErrorRate := parseUnitIntervalNumber (jget cf (str "maxErrorRate")),
      maxLatencyP90Ms := parseNonNegativeNumber (jget cf (str "maxLatencyP90Ms")),
      minUptime := parseUnitIntervalNumber (jget cf (str "minUptime")) }
    if c.maxErrorRate.isSome || c.maxLatencyP90Ms.isSome || c.minUptime.isSome
    then some c else none
  | _ => none

/-- The `taskFloors` block, `none` when no valid floor remains. -/
def parseTaskFloorsOv (v : JVal) : Option TaskQMap :=
  match v with
  | .vobj tf =>
    let fl : TaskQMap := {
      code := parseTaskFloor (jget tf (str "code")),
      vision := parseTaskFloor (jget tf (str "vision")),
      text := parseTaskFloor (jget tf (str "text")) }
    if fl.code.isSome || fl.vision.isSome || fl.text.isSome then some fl else none
  | _ => none

/-- The `weights` block, `none` when no valid weight remains. -/
def parseWeightsOv (v : JVal) : Option RoutingWeightsOv :=
  match v with
  | .vobj wf =>
    let w : RoutingWeightsOv := {
      capability := parseNonNegativeNumber (jget wf (str "capability")),
      cost := parseNonNegativeNumber (jget wf (str "cost")),
      latency := parseNonNegativeNumber (jget wf (str "latency")),
      reliability := parseNonNegativeNumber (jget wf (str "reliability")),
      throughput := parseNonNegativeNumber (jget wf (str "throughput")) }
    if w.capability.isSome || w.cost.isSome || w.latency.isSome ||
        w.reliability.isSome || w.throughput.isSome
    then some w else none
  | _ => none

/-- `sanitizeRoutingModePolicyOverride`: per-field drop-invalid, absent
when nothing valid remains. -/
def sanitizeRoutingModePolicyOverride (input : JVal) : Option RoutingModePolicyOverride :=
  match input with
  | .vobj fields =>
    let complexityBias := parseFiniteNumber (jget fields (str "complexityBias"))
    let constraints := parseConstraintsOv (jget fields (str "constraints"))
    let taskFloors := parseTaskFloorsOv (jget fields (str "taskFloors"))
    let weights := parseWeightsOv (jget fields (str "weights"))
    if complexityBias.isSome || constraints.isSome || taskFloors.isSome || weights.isSome
    then some ⟨complexityBias, constraints, taskFloors, weights⟩
    else none
  | _ => none

/-- Concrete snapshot input for the C7 witness. -/
def exSnap : JVal := .vobj [
  (str "generatedAtMs", .vnum (.fin 5)),
  (str "routes", .vobj [
    (str "P/M", .vobj [
      (str "observedAtMs", .vnum (.fin 1)),
      (str "errorRate", .vnum (.fin (mkRat 1 2)))])])]

/-- Sanitized form of `exSnap`. -/
def exSnap0 : RoutingSignalsSnapshot :=
  ⟨5, some [(str "p/m", { observedAtMs := 1, errorRate := some (mkRat 1 2) })], none⟩

/-! ### Kernel-computable rational arithmetic

The standard `Rat` operations are `@[irreducible]` in this toolchain, so
concrete runs of the selector could not be checked by `decide`.  The
selector model therefore uses the following equivalent `mkRat`-based
operations; `qadd_eq` … `qdiv_eq` below prove that each one agrees with
the standard operation, so the model still denotes ordinary rational
(JavaScript number) arithmetic. -/

/-- Rational addition via `mkRat`. -/
def qadd (a b : ℚ) : ℚ := mkRat (a.num * b.den + b.num * a.den) (a.den * b.den)

/-- Rational subtraction via `mkRat`. -/
def qsub (a b : ℚ) : ℚ := mkRat (a.num * b.den - b.num * a.den) (a.den * b.den)

/-- Rational multiplication via `mkRat`. -/
def qmul (a b : ℚ) : ℚ := mkRat (a.num * b.num) (a.den * b.den)

/-- Rational division via `Rat.divInt` (0 when the divisor is 0, which no
code path reaches with a zero divisor). -/
def qdiv (a b : ℚ) : ℚ := Rat.divInt (a.num * b.den) (a.den * b.num)

/-! ### Selector (src/selector.ts) -/

/-- `CostPreference` (`types.ts`). -/
inductive CostPreference where
  | eco | balanced | premium
deriving DecidableEq

/-- `RoutingMode` (`types.ts`). -/
inductive RoutingMode where
  | balanced | cheap | fast | quality | reliable
deriving DecidableEq

/-- `ClassificationResult` (`types.ts`). -/
structure ClassificationResult where
  type : TaskType
  complexity : ℚ
  reasoning : Str
deriving DecidableEq

/-- Registry entry of the external `pi-ai` model registry (the
`getProviders`/`getModels` enumeration, flattened, with per-token cost). -/
structure RegistryModel where
  provider : Str
  id : Str
  name : Str
  costInput : ℚ
  costOutput : ℚ
deriving DecidableEq

/-- `RoutingScoreWeights` of a built-in policy (all components present). -/
structure RoutingScoreWeights where
  capability : ℚ
  cost : ℚ
  latency : ℚ
  reliability : ℚ
  throughput : ℚ
deriving DecidableEq

/-- `RoutingModePolicy`. -/
structure RoutingModePolicy where
  complexityBias : ℚ
  constraints : RoutingModeConstraintsOv
  taskFloors : TaskQMap
  weights : RoutingScoreWeights
deriving DecidableEq

/-- `DEFAULT_MODE_POLICIES` (selector.ts lines 50–105). -/
def DEFAULT_MODE_POLICIES : RoutingMode → RoutingModePolicy
  | .balanced =>
    { complexityBias := 0,
      constraints := { maxErrorRate := some (mkRat 8 100), minUptime := some (mkRat 92 100) },
      taskFloors := ⟨some 2, some 2, some 2⟩,
      weights := ⟨mkRat 50 100, mkRat 5 100, mkRat 15 100, mkRat 20 100, mkRat 10 100⟩ }
  | .cheap =>
    { complexityBias := -1,
      constraints := { maxErrorRate := some (mkRat 10 100), minUptime := some (mkRat 88 100) },
      taskFloors := ⟨some 1, some 1, some 1⟩,
      weights := ⟨mkRat 25 100, mkRat 45 100, mkRat 10 100, mkRat 15 100, mkRat 5 100⟩ }
  | .fast =>
    { complexityBias := 0,
      constraints := { maxErrorRate := some (mkRat 10 100), maxLatencyP90Ms := some 4000,
                       minUptime := some (mkRat 90 100) },
      taskFloors := ⟨some 2, some 2, some 2⟩,
      weights := ⟨mkRat 25 100, mkRat 5 100, mkRat 45 100, mkRat 15 100, mkRat 10 100⟩ }
  | .quality =>
    { complexityBias := 1,
      constraints := { maxErrorRate := some (mkRat 6 100), minUptime := some (mkRat 94 100) },
      taskFloors := ⟨some 3, some 3, some 3⟩,
      weights := ⟨mkRat 65 100, mkRat 2 100, mkRat 8 100, mkRat 20 100, mkRat 5 100⟩ }
  | .reliable =>
    { complexityBias := 0,
      constraints := { maxErrorRate := some (mkRat 3 100), minUptime := some (mkRat 97 100) },
      taskFloors := ⟨some 2, some 2, some 2⟩,
      weights := ⟨mkRat 30 100, mkRat 5 100, mkRat 10 100, mkRat 50 100, mkRat 5 100⟩ }

/-- The weights of a rating map: code, vision, text (the three task
types); here the `taskFloors` shape of `TaskQMap` is reused. -/
abbrev RoutingTaskFloors := TaskQMap

/-- `SelectionOptions` (selector.ts lines 108–131); the two sanitized
inputs are untrusted `JVal`s, `vundef` when absent. -/
structure SelectionOptions where
  matrixOverrides : Option ModelMatrixOverrides := none
  pool : Option (List ResolvedModel) := none
  preferredProviders : Option (List Str) := none
  routingModePolicyOverride : JVal := .vundef
  routingMode : Option RoutingMode := none
  routingSignals : JVal := JVal.vundef

/-- `clamp(value, min, max) = Math.min(max, Math.max(min, value))`. -/
def clampQ (value lo hi : ℚ) : ℚ := min hi (max lo value)

/-- `buildProviderPreferenceMap`: name → index, later duplicates
overwrite (JS `Map.set`). -/
def buildProviderPreferenceMap (preferredProviders : Option (List Str)) : Obj ℕ :=
  match preferredProviders with
  | none => []
  | some l => l.enum.foldl (fun prefMap p => objSet prefMap p.2 p.1) []

/-- `providerPriority`: index or `Infinity` (`⊤`). -/
def providerPriority (prefMap : Obj ℕ) (provider : Str) : WithTop ℕ :=
  match objGet prefMap provider with
  | some i => (i : WithTop ℕ)
  | none => ⊤

/-- `getEffectiveModePolicy`: spread-merge of the built-in policy with
the sanitized override (override fields win; nested objects merge
key-by-key). -/
def getEffectiveModePolicy (mode : RoutingMode)
    (override : Option RoutingModePolicyOverride) : RoutingModePolicy :=
  let base := DEFAULT_MODE_POLICIES mode
  let oc := override.bind (·.constraints)
  let ot := override.bind (·.taskFloors)
  let ow := override.bind (·.weights)
  { complexityBias := (override.bind (·.complexityBias)).getD base.complexityBias,
    constraints := {
      maxErrorRate := (oc.bind (·.maxErrorRate)).orElse (fun _ => base.constraints.maxErrorRate),
      maxLatencyP90Ms := (oc.bind (·.maxLatencyP90Ms)).orElse (fun _ => base.constraints.maxLatencyP90Ms),
      minUptime := (oc.bind (·.minUptime)).orElse (fun _ => base.constraints.minUptime) },
    taskFloors := {
      code := (ot.bind (·.code)).orElse (fun _ => base.taskFloors.code),
      vision := (ot.bind (·.vision)).orElse (fun _ => base.taskFloors.vision),
      text := (ot.bind (·.text)).orElse (fun _ => base.taskFloors.text) },
    weights := {
      capability := (ow.bind (·.capability)).getD base.weights.capability,
      cost := (ow.bind (·.cost)).getD base.weights.cost,
      latency := (ow.bind (·.latency)).getD base.weights.latency,
      reliability := (ow.bind (·.reliability)).getD base.weights.reliability,
      throughput := (ow.bind (·.throughput)).getD base.weights.throughput } }

/-- `buildCostIndex`: `provider/id` → `(cost.input + cost.output) / 2`. -/
def buildCostIndex (registry : List RegistryModel) : Obj ℚ :=
  registry.foldl (fun index m =>
    objSet index (m.provider ++ '/' :: m.id) (qdiv (qadd m.costInput m.costOutput) 2)) []

/-- `ScoredCandidate`. -/
structure ScoredCandidate where
  arenaScores : Option ModelArenaScores
  effectiveCost : ℚ
  ratings : ModelRatings
  resolved : ResolvedModel
deriving DecidableEq

/-- `ModeScoredCandidate`. -/
structure ModeScoredCandidate where
  arenaScores : Option ModelArenaScores
  effectiveCost : ℚ
  ratings : ModelRatings
  resolved : ResolvedModel
  score : ℚ
deriving DecidableEq

/-- `{ ...candidate, score }`. -/
def toModeScored (c : ScoredCandidate) (score : ℚ) : ModeScoredCandidate :=
  ⟨c.arenaScores, c.effectiveCost, c.ratings, c.resolved, score⟩

/-- `enumerateCandidates`: all registry models with matrix ratings. -/
def enumerateCandidates (registry : List RegistryModel)
    (getRatings : Str → Option ModelRatings)
    (getArenaPriors : Str → Option ModelArenaScores) : List ScoredCandidate :=
  registry.filterMap (fun m =>
    match getRatings m.id with
    | none => none
    | some ratings => some {
        arenaScores := getArenaPriors m.id,
        effectiveCost := qdiv (qadd m.costInput m.costOutput) 2,
        ratings := ratings,
        resolved := ⟨m.provider, m.id, m.provider ++ '/' :: m.id⟩ })

/-- `candidatesFromPool`: pool members with matrix ratings and registry
costs. -/
def candidatesFromPool (registry : List RegistryModel) (pool : List ResolvedModel)
    (getRatings : Str → Option ModelRatings)
    (getArenaPriors : Str → Option ModelArenaScores) : List ScoredCandidate :=
  let costIndex := buildCostIndex registry
  pool.filterMap (fun resolved =>
    match getRatings resolved.id with
    | none => none
    | some ratings =>
      match objGet costIndex (resolved.provider ++ '/' :: resolved.id) with
      | none => none
      | some effectiveCost => some {
          arenaScores := getArenaPriors resolved.id,
          effectiveCost := effectiveCost,
          ratings := ratings,
          resolved := resolved })

/-- `getRouteSignal`: strict canonical-key lookup. -/
def getRouteSignal (candidate : ScoredCandidate)
    (signals : Option RoutingSignalsSnapshot) : Option RoutingRouteSignal :=
  match signals with
  | none => none
  | some s =>
    match s.routes with
    | none => none
    | some routes =>
      objGet routes (buildRouteSignalKey candidate.resolved.provider candidate.resolved.id)

/-- `getModelSignal`: model key, then provider-scoped key, then longest
prefix key (`matchingPrefix ? … : undefined`, with the JS falsy quirk on
an empty-string key). -/
def getModelSignal (candidate : ScoredCandidate)
    (signals : Option RoutingSignalsSnapshot) : Option RoutingModelSignal :=
  match signals with
  | none => none
  | some s =>
    match s.models with
    | none => none
    | some models =>
      let modelKey := buildModelSignalKey candidate.resolved.id
      match objGet models modelKey with
      | some sig => some sig
      | none =>
        let providerModelKey :=
          buildProviderModelSignalKey candidate.resolved.provider candidate.resolved.id
        match objGet models providerModelKey with
        | some sig => some sig
        | none =>
          match (sortKeysLongestFirst
              ((models.map (·.1)).filter (fun key => key.isPrefixOf modelKey))).head? with
          | some key => if key.isEmpty then none else objGet models key
          | none => none

/-- `reliabilityScore`: mean of three optional sub-scores, 0.5 each when
absent. -/
def reliabilityScore (routeSignal : Option RoutingRouteSignal) : ℚ :=
  let uptimeScore := match routeSignal.bind (·.uptime) with
    | none => mkRat 1 2
    | some u => clampQ u 0 1
  let errorScore := match routeSignal.bind (·.errorRate) with
    | none => mkRat 1 2
    | some e => clampQ (qsub 1 e) 0 1
  let fallbackScore := match routeSignal.bind (·.fallbackRate) with
    | none => mkRat 1 2
    | some f => clampQ (qsub 1 f) 0 1
  qdiv (qadd (qadd uptimeScore errorScore) fallbackScore) 3

/-- `latencyScore`: `1 / (1 + ms/1000)` on p90, else p50, else
model-level TTFT; 0.5 when nothing is available. -/
def latencyScore (routeSignal : Option RoutingRouteSignal)
    (modelSignal : Option RoutingModelSignal) : ℚ :=
  match ((routeSignal.bind (·.latencyP90Ms)).orElse
      (fun _ => routeSignal.bind (·.latencyP50Ms))).orElse
      (fun _ => modelSignal.bind (·.ttftMedianMs)) with
  | none => mkRat 1 2
  | some latencyMs => clampQ (qdiv 1 (qadd 1 (qdiv latencyMs 1000))) 0 1

/-- `throughputScore`: `tps / (tps + 50)` on p50, else p90, else
model-level median; 0.5 when nothing is available. -/
def throughputScore (routeSignal : Option RoutingRouteSignal)
    (modelSignal : Option RoutingModelSignal) : ℚ :=
  match ((routeSignal.bind (·.throughputP50Tps)).orElse
      (fun _ => routeSignal.bind (·.throughputP90Tps))).orElse
      (fun _ => modelSignal.bind (·.outputTpsMedian)) with
  | none => mkRat 1 2
  | some tokensPerSecond =>
    clampQ (qdiv tokensPerSecond (qadd tokensPerSecond 50)) 0 1

/-- `costScore`: `1 / (1 + max(0, effectiveCost))`. -/
def costScore (effectiveCost : ℚ) : ℚ :=
  clampQ (qdiv 1 (qadd 1 (max 0 effectiveCost))) 0 1

/-- `ARENA_TIER_BOUNDARIES`. -/
def ARENA_TIER_BOUNDARIES : TaskType → ℚ × ℚ × ℚ × ℚ
  | .code => (1180, 1280, 1370, 1440)
  | .text => (1320, 1370, 1410, 1460)
  | .vision => (1100, 1150, 1200, 1250)

/-- `normalizeArenaPrior`: 5-band piecewise-linear normalization. -/
def normalizeArenaPrior (taskType : TaskType) (rawScore : ℚ) : ℚ :=
  let b := ARENA_TIER_BOUNDARIES taskType
  let tier2 := b.1
  let tier3 := b.2.1
  let tier4 := b.2.2.1
  let tier5 := b.2.2.2
  if rawScore < tier2 then
    clampQ (qmul (qdiv rawScore tier2) (mkRat 1 5)) 0 (mkRat 1 5)
  else if rawScore < tier3 then
    clampQ (qadd (mkRat 1 5) (qmul (qdiv (qsub rawScore tier2) (qsub tier3 tier2)) (mkRat 1 5)))
      (mkRat 1 5) (mkRat 2 5)
  else if rawScore < tier4 then
    clampQ (qadd (mkRat 2 5) (qmul (qdiv (qsub rawScore tier3) (qsub tier4 tier3)) (mkRat 1 5)))
      (mkRat 2 5) (mkRat 3 5)
  else if rawScore < tier5 then
    clampQ (qadd (mkRat 3 5) (qmul (qdiv (qsub rawScore tier4) (qsub tier5 tier4)) (mkRat 1 5)))
      (mkRat 3 5) (mkRat 4 5)
  else
    clampQ (qadd (mkRat 4 5) (qmul (qdiv (qsub rawScore tier5) (qsub tier5 tier4)) (mkRat 1 5)))
      (mkRat 4 5) 1

/-- `capabilityComponentScore`. -/
def capabilityComponentScore (taskType : TaskType) (taskRating : ℚ)
    (arenaScore : Option ℚ) : ℚ :=
  match arenaScore with
  | some s => normalizeArenaPrior taskType s
  | none => clampQ (qdiv taskRating 5) 0 1

/-- `passesModeConstraints` (selector.ts lines 455–488): constraints are
enforced only when the corresponding telemetry field exists. -/
def passesModeConstraints (candidate : ScoredCandidate) (policy : RoutingModePolicy)
    (signals : Option RoutingSignalsSnapshot) : Bool :=
  match getRouteSignal candidate signals with
  | none => true
  | some routeSignal =>
    let latencyViolated := match policy.constraints.maxLatencyP90Ms, routeSignal.latencyP90Ms with
      | some maxL, some l => decide (maxL < l)
      | _, _ => false
    let errorViolated := match policy.constraints.maxErrorRate, routeSignal.errorRate with
      | some maxE, some e => decide (maxE < e)
      | _, _ => false
    let uptimeViolated := match policy.constraints.minUptime, routeSignal.uptime with
      | some minU, some u => decide (u < minU)
      | _, _ => false
    if latencyViolated then false
    else if errorViolated then false
    else if uptimeViolated then false
    else true

/-- `computeModeScore`: weighted sum of the five components. -/
def computeModeScore (candidate : ScoredCandidate) (taskType : TaskType)
    (policy : RoutingModePolicy) (signals : Option RoutingSignalsSnapshot) : ℚ :=
  let routeSignal := getRouteSignal candidate signals
  let modelSignal := getModelSignal candidate signals
  let taskRating := (candidate.ratings.get taskType).getD 0
  let arenaScore := candidate.arenaScores.bind (·.get taskType)
  let capability := capabilityComponentScore taskType taskRating arenaScore
  let reliability := reliabilityScore routeSignal
  let latency := latencyScore routeSignal modelSignal
  let throughput := throughputScore routeSignal modelSignal
  let cost := costScore candidate.effectiveCost
  qadd (qadd (qadd (qadd
    (qmul policy.weights.capability capability)
    (qmul policy.weights.reliability reliability))
    (qmul policy.weights.latency latency))
    (qmul policy.weights.throughput throughput))
    (qmul policy.weights.cost cost)

/-- `providerPriority(a) - providerPriority(b)` with JS semantics: a
finite index minus `Infinity` is `-Infinity` (negative), `Infinity`
minus a finite index is positive, and `Infinity - Infinity` is `NaN`,
which the ES `SortCompare` coerces to `+0` (treated as a tie). -/
def prioDiff (prefMap : Obj ℕ) (pa pb : Str) : ℚ :=
  match objGet prefMap pa, objGet prefMap pb with
  | some i, some j => mkRat ((i : ℤ) - (j : ℤ)) 1
  | some _, none => -1
  | none, some _ => 1
  | none, none => 0

/-- The `sortLegacy` comparator (selector.ts lines 542–569). -/
def cmpLegacy (costPreference : CostPreference) (taskType : TaskType) (complexity : ℚ)
    (prefMap : Obj ℕ) (a b : ScoredCandidate) : ℚ :=
  match costPreference with
  | .eco =>
    let costDiff := qsub a.effectiveCost b.effectiveCost
    if costDiff ≠ 0 then costDiff
    else prioDiff prefMap a.resolved.provider b.resolved.provider
  | .premium =>
    let costDiff := qsub b.effectiveCost a.effectiveCost
    if costDiff ≠ 0 then costDiff
    else prioDiff prefMap a.resolved.provider b.resolved.provider
  | .balanced =>
    let aExact : ℚ := if a.ratings.get taskType = some complexity then 0 else 1
    let bExact : ℚ := if b.ratings.get taskType = some complexity then 0 else 1
    if aExact ≠ bExact then qsub aExact bExact
    else
      let costDiff := qsub a.effectiveCost b.effectiveCost
      if costDiff ≠ 0 then costDiff
      else prioDiff prefMap a.resolved.provider b.resolved.provider

/-- `sortLegacy`: the stable JS sort under `cmpLegacy`. -/
def sortLegacy (candidates : List ScoredCandidate) (costPreference : CostPreference)
    (taskType : TaskType) (complexity : ℚ) (prefMap : Obj ℕ) : List ScoredCandidate :=
  stableSort (fun a b =>
    decide (cmpLegacy costPreference taskType complexity prefMap a b ≤ 0)) candidates

/-- `modeTieBreakPreference`. -/
def modeTieBreakPreference (mode : RoutingMode) (fallback : CostPreference) : CostPreference :=
  match mode with
  | .cheap => .eco
  | .quality => .premium
  | _ => fallback

/-- Sign of an `Ordering` as a comparator value (model of
`localeCompare` on the ASCII provider/model names, by code point). -/
def ordToQ : Ordering → ℚ
  | .lt => -1
  | .eq => 0
  | .gt => 1

/-- The routing-mode sort comparator (selector.ts lines 668–688). -/
def cmpMode (tieBreakPreference : CostPreference) (prefMap : Obj ℕ)
    (a b : ModeScoredCandidate) : ℚ :=
  let scoreDiff := qsub b.score a.score
  if scoreDiff ≠ 0 then scoreDiff
  else
    let providerDiff := prioDiff prefMap a.resolved.provider b.resolved.provider
    if providerDiff ≠ 0 then providerDiff
    else
      let afterCost :=
        let providerNameDiff := ordToQ (cmpStr a.resolved.provider b.resolved.provider)
        if providerNameDiff ≠ 0 then providerNameDiff
        else ordToQ (cmpStr a.resolved.id b.resolved.id)
      if tieBreakPreference = .premium then
        let costDiff := qsub b.effectiveCost a.effectiveCost
        if costDiff ≠ 0 then costDiff else afterCost
      else
        let costDiff := qsub a.effectiveCost b.effectiveCost
        if costDiff ≠ 0 then costDiff else afterCost

/-- Effective policy for the options' override payload. -/
def effectivePolicyOf (options : SelectionOptions) (mode : RoutingMode) : RoutingModePolicy :=
  getEffectiveModePolicy mode
    (sanitizeRoutingModePolicyOverride options.routingModePolicyOverride)

/-- The candidate set of a `selectModels` call (pool path or registry
enumeration). -/
def allCandidatesOf (registry : List RegistryModel) (options : SelectionOptions) :
    List ScoredCandidate :=
  let getRatings := createModelRatingsLookup options.matrixOverrides
  match options.pool with
  | some pool => candidatesFromPool registry pool getRatings createModelArenaPriorsLookup
  | none => enumerateCandidates registry getRatings createModelArenaPriorsLookup

/-- `Math.max(policy.taskFloors?.[type] ?? 1, effectiveComplexity)`. -/
def taskFloorOf (options : SelectionOptions) (mode : RoutingMode)
    (classification : ClassificationResult) : ℚ :=
  let policy := effectivePolicyOf options mode
  max ((policy.taskFloors.get classification.type).getD 1)
    (clampQ (qadd classification.complexity policy.complexityBias) 1 5)

/-- The floor-filtered candidates of the routing-mode path. -/
def capableCandidatesOf (registry : List RegistryModel) (options : SelectionOptions)
    (mode : RoutingMode) (classification : ClassificationResult) : List ScoredCandidate :=
  (allCandidatesOf registry options).filter (fun candidate =>
    match candidate.ratings.get classification.type with
    | some rating => decide (taskFloorOf options mode classification ≤ rating)
    | none => false)

/-- `selectModels` (selector.ts lines 610–691), with the external model
registry made explicit. -/
def selectModels (registry : List RegistryModel) (classification : ClassificationResult)
    (costPreference : CostPreference)
    (poolOrOptions : Option (List ResolvedModel ⊕ SelectionOptions)) : List ResolvedModel :=
  let options : SelectionOptions := match poolOrOptions with
    | some (.inl pool) => { pool := some pool }
    | some (.inr o) => o
    | none => {}
  let prefMap := buildProviderPreferenceMap options.preferredProviders
  let allCandidates := allCandidatesOf registry options
  match options.routingMode with
  | none =>
    let legacyCandidates := allCandidates.filter (fun candidate =>
      match candidate.ratings.get classification.type with
      | some rating => decide (classification.complexity ≤ rating)
      | none => false)
    if legacyCandidates.length = 0 then []
    else
      (sortLegacy legacyCandidates costPreference classification.type
        classification.complexity prefMap).map (·.resolved)
  | some mode =>
    let routingSignals := sanitizeRoutingSignalsSnapshot options.routingSignals
    let policy := effectivePolicyOf options mode
    let capableCandidates := capableCandidatesOf registry options mode classification
    if capableCandidates.length = 0 then []
    else
      let constrainedCandidates := capableCandidates.filter (fun candidate =>
        passesModeConstraints candidate policy routingSignals)
      let scoringPool :=
        if constrainedCandidates.length > 0 then constrainedCandidates
        else capableCandidates
      let modeScoredCandidates := scoringPool.map (fun candidate =>
        toModeScored candidate
          (computeModeScore candidate classification.type policy routingSignals))
      let tieBreakPreference := modeTieBreakPreference mode costPreference
      (stableSort (fun a b => decide (cmpMode tieBreakPreference prefMap a b ≤ 0))
        modeScoredCandidates).map (·.resolved)

/-! ### Override template and parser (src/matrix.ts lines 366–452) -/

/-- One `rawOverride[taskType]` check of `parseModelMatrixOverrides`:
a number that is integer-like and in `[1,5]`. -/
def parseOverrideRating (fields : List (Str × JVal)) (key : Str) : Option ℚ :=
  match jget fields key with
  | .vnum (.fin q) => if q.den = 1 ∧ 1 ≤ q ∧ q ≤ 5 then some q else none
  | _ => none

/-- One entry of the `parseModelMatrixOverrides` loop: `null` is kept as
a removal, a record keeps its valid ratings when at least one remains,
everything else is dropped. -/
def parseMatrixEntry (parsed : ModelMatrixOverrides) (e : Str × JVal) : ModelMatrixOverrides :=
  match e.2 with
  | .vnull => objSet parsed e.1 none
  | .vobj ovFields =>
    let ratings : ModelRatings :=
      ⟨parseOverrideRating ovFields (str "code"),
       parseOverrideRating ovFields (str "vision"),
       parseOverrideRating ovFields (str "text")⟩
    if ratings.code.isSome || ratings.vision.isSome || ratings.text.isSome then
      objSet parsed e.1 (some ratings)
    else parsed
  | _ => parsed

/-- `parseModelMatrixOverrides`: unwraps a `matrixOverrides` field when
the root owns one, then validates entry by entry. -/
def parseModelMatrixOverridesJ (input : JVal) : Option ModelMatrixOverrides :=
  let root := match input with
    | .vobj fields =>
      if (objGet fields (str "matrixOverrides")).isSome then jget fields (str "matrixOverrides")
      else input
    | _ => input
  match root with
  | .vobj rootFields => some (rootFields.foldl parseMatrixEntry [])
  | _ => none

/-- A rating map as the JSON record the template serializes (only the
defined task types appear as fields). -/
def encodeRatings (r : ModelRatings) : JVal :=
  .vobj ((match r.code with | some q => [(str "code", JVal.vnum (JNum.fin q))] | none => []) ++
         (match r.vision with | some q => [(str "vision", JVal.vnum (JNum.fin q))] | none => []) ++
         (match r.text with | some q => [(str "text", JVal.vnum (JNum.fin q))] | none => []))

/-- A matrix as the JSON record the template serializes. -/
def encodeMatrix (matrix : Obj ModelRatings) : JVal :=
  .vobj (matrix.map (fun p => (p.1, encodeRatings p.2)))

/-- `createModelMatrixOverrideTemplate()` with default options, as the
JSON value it serializes to: `{ exclude: [], matrixOverrides: copyMatrix(MODEL_MATRIX) }`. -/
def createModelMatrixOverrideTemplate : JVal :=
  .vobj [(str "exclude", .varr []),
         (str "matrixOverrides", encodeMatrix (copyMatrix MODEL_MATRIX))]

/-! ### Order predicates and concrete selection scenarios -/

/-- Exact-match rank of the balanced legacy comparator: 0 when the
task rating equals the classified complexity, else 1. -/
def exactRank (taskType : TaskType) (complexity : ℚ) (c : ScoredCandidate) : ℕ :=
  if c.ratings.get taskType = some complexity then 0 else 1

/-- The intended balanced legacy order: exact-match candidates first,
then ascending effective cost, then preferred-provider index (`⊤` for
unlisted providers). -/
def balancedLe (taskType : TaskType) (complexity : ℚ) (prefMap : Obj ℕ)
    (a b : ScoredCandidate) : Prop :=
  exactRank taskType complexity a < exactRank taskType complexity b ∨
    (exactRank taskType complexity a = exactRank taskType complexity b ∧
      (a.effectiveCost < b.effectiveCost ∨
        (a.effectiveCost = b.effectiveCost ∧
          providerPriority prefMap a.resolved.provider ≤
            providerPriority prefMap b.resolved.provider)))

/-- Scenario: one registry model whose only telemetry violates the
balanced `maxErrorRate` constraint. -/
def c4Registry : List RegistryModel := [⟨str "z", str "glm-5", str "GLM 5", 1, 1⟩]

/-- The matching single-model pool. -/
def c4Pool : List ResolvedModel := [⟨str "z", str "glm-5", str "z/glm-5"⟩]

/-- Telemetry for the scenario: a 50% error rate on the only route. -/
def c4Signals : JVal := .vobj [
  (str "generatedAtMs", .vnum (.fin 5)),
  (str "routes", .vobj [
    (str "z/glm-5", .vobj [
      (str "observedAtMs", .vnum (.fin 1)),
      (str "errorRate", .vnum (.fin (mkRat 1 2)))])])]

/-- Options selecting the balanced routing mode over that pool. -/
def c4Opts : SelectionOptions :=
  { pool := some c4Pool, routingMode := some RoutingMode.balanced, routingSignals := c4Signals }

/-- A code task of complexity 3. -/
def c4Cls : ClassificationResult := ⟨TaskType.code, 3, str ""⟩

/-- Overrides installing two synthetic models: `m-a` rated 5 across the
board, `m-b` rated 3. -/
def c5Ov : ModelMatrixOverrides := [
  (str "m-a", some (R (some 5) (some 5) (some 5))),
  (str "m-b", some (R (some 3) (some 3) (some 3)))]

/-- Registry costs: `m-a` effective cost 10, `m-b` effective cost 1. -/
def c5Registry : List RegistryModel := [
  ⟨str "prov", str "m-a", str "A", 10, 10⟩,
  ⟨str "prov", str "m-b", str "B", 1, 1⟩]

/-- The expensive rating-5 model. -/
def c5A : ResolvedModel := ⟨str "prov", str "m-a", str "prov/m-a"⟩

/-- The cheap exact-match rating-3 model. -/
def c5B : ResolvedModel := ⟨str "prov", str "m-b", str "prov/m-b"⟩

/-- Pool listing the expensive model first. -/
def c5Pool : List ResolvedModel := [c5A, c5B]

/-- Legacy-path options: pool plus the synthetic overrides, no routing
mode. -/
def c5Opts : SelectionOptions := { matrixOverrides := some c5Ov, pool := some c5Pool }

/-- A code task of complexity 3 for the legacy scenario. -/
def c5Cls : ClassificationResult := ⟨TaskType.code, 3, str ""⟩

/-! ## Theorems -/

/-! ### Stable-sort infrastructure -/

theorem stableInsert_perm (le : α → α → Bool) (x : α) :
    ∀ l : List α, List.Perm (stableInsert le x l) (x :: l)
  | [] => List.Perm.refl _
  | y :: t => by
    unfold stableInsert
    by_cases h : le x y = true
    · simp [h]
    · simp only [h, if_false]
      exact ((stableInsert_perm le x t).cons y).trans (List.Perm.swap x y t)

theorem stableSort_perm (le : α → α → Bool) :
    ∀ l : List α, List.Perm (stableSort le l) l
  | [] => List.Perm.refl _
  | x :: t =>
    (stableInsert_perm le x (stableSort le t)).trans ((stableSort_perm le t).cons x)

theorem mem_stableSort (le : α → α → Bool) (l : List α) (a : α) :
    a ∈ stableSort le l ↔ a ∈ l :=
  (stableSort_perm le l).mem_iff

theorem pairwise_stableInsert (le : α → α → Bool)
    (htot : ∀ a b, (le a b || le b a) = true)
    (htrans : ∀ a b c, le a b = true → le b c = true → le a c = true) (x : α) :
    ∀ l : List α, l.Pairwise (fun a b => le a b = true) →
      (stableInsert le x l).Pairwise (fun a b => le a b = true)
  | [], _ => by simp [stableInsert]
  | y :: t, h => by
    unfold stableInsert
    rcases List.pairwise_cons.mp h with ⟨hy, ht⟩
    by_cases hxy : le x y = true
    · simp only [hxy, if_true]
      refine List.pairwise_cons.mpr ⟨?_, h⟩
      intro b hb
      rcases List.mem_cons.mp hb with rfl | hb
      · exact hxy
      · exact htrans x y b hxy (hy b hb)
    · simp only [hxy, if_false]
      refine List.pairwise_cons.mpr
        ⟨?_, pairwise_stableInsert le htot htrans x t ht⟩
      intro b hb
      rcases List.mem_cons.mp (((stableInsert_perm le x t).mem_iff).mp hb) with hbx | hb
      · rw [hbx]
        rcases Bool.or_eq_true_iff.mp (htot x y) with hx | hyx
        · exact absurd hx hxy
        · exact hyx
      · exact hy b hb

theorem sorted_stableSort (le : α → α → Bool)
    (htot : ∀ a b, (le a b || le b a) = true)
    (htrans : ∀ a b c, le a b = true → le b c = true → le a c = true) :
    ∀ l : List α, (stableSort le l).Pairwise (fun a b => le a b = true)
  | [] => List.Pairwise.nil
  | x :: t => pairwise_stableInsert le htot htrans x _ (sorted_stableSort le htot htrans t)


/-! ### Object-map and longest-key lookup lemmas -/

theorem objGet_mem {α : Type} {l : Obj α} {k : Str} {v : α}
    (h : objGet l k = some v) : (k, v) ∈ l := by
  unfold objGet at h
  cases hf : l.find? (fun p => p.1 == k) with
  | none => rw [hf] at h; simp at h
  | some pair =>
    rw [hf] at h
    have hm := List.mem_of_find?_eq_some hf
    have hp := List.find?_some hf
    have h1 : pair.1 = k := by simpa using hp
    have h2 : pair.2 = v := by simpa using h
    obtain ⟨a, b⟩ := pair
    simp only at h1 h2
    rw [h1, h2] at hm
    exact hm

theorem exists_objGet_of_mem_keys {α : Type} {l : Obj α} {k : Str}
    (h : k ∈ l.map (·.1)) : ∃ v, objGet l k = some v := by
  rcases List.mem_map.mp h with ⟨p, hp, hk⟩
  have hsome : (l.find? (fun p => p.1 == k)).isSome :=
    List.find?_isSome.mpr ⟨p, hp, by simp [hk]⟩
  rcases Option.isSome_iff_exists.mp hsome with ⟨q, hq⟩
  exact ⟨q.2, by simp [objGet, hq]⟩

theorem sortKeys_perm (keys : List Str) :
    List.Perm (sortKeysLongestFirst keys) keys :=
  stableSort_perm _ keys

theorem sortKeys_sorted (keys : List Str) :
    (sortKeysLongestFirst keys).Pairwise (fun a b => b.length ≤ a.length) := by
  have h := sorted_stableSort (fun a b : Str => decide (b.length ≤ a.length))
    (fun a b => by
      rcases Nat.le_total b.length a.length with h | h <;> simp [h])
    (fun a b c hab hbc => by
      simp only [decide_eq_true_iff] at hab hbc ⊢
      exact Nat.le_trans hbc hab) keys
  exact h.imp (fun hab => by simpa using hab)

theorem find?_maximal_length (p : Str → Bool) :
    ∀ (l : List Str), l.Pairwise (fun a b => b.length ≤ a.length) →
      ∀ {k}, l.find? p = some k → ∀ q ∈ l, p q = true → q.length ≤ k.length
  | [], _, k, h => by simp at h
  | a :: t, hp, k, h => by
    rcases List.pairwise_cons.mp hp with ⟨ha, ht⟩
    intro q hq hpq
    by_cases hpa : p a = true
    · rw [List.find?_cons_of_pos _ hpa] at h
      have hak : a = k := by simpa using h
      rcases List.mem_cons.mp hq with rfl | hq
      · rw [hak]
      · rw [← hak]; exact ha q hq
    · rw [List.find?_cons_of_neg _ hpa] at h
      rcases List.mem_cons.mp hq with rfl | hq
      · exact absurd hpq hpa
      · exact find?_maximal_length p t ht h q hq hpq

/-- Characterization of the prefix lookup: the hit is a longest, nonempty
prefix key of the effective matrix, and the result is absent exactly when
every prefix key is the empty string. -/
theorem createModelRatingsLookup_spec (mo : Option ModelMatrixOverrides) (modelId : Str) :
    (∀ r, createModelRatingsLookup mo modelId = some r →
      ∃ k, objGet (effectiveMatrix mo) k = some r ∧ (k, r) ∈ effectiveMatrix mo ∧ k ≠ [] ∧
        k <+: resolveBareModelId modelId ∧
        ∀ q ∈ (effectiveMatrix mo).map (·.1),
          q <+: resolveBareModelId modelId → q.length ≤ k.length) ∧
    (createModelRatingsLookup mo modelId = none ↔
      ∀ q ∈ (effectiveMatrix mo).map (·.1),
        q <+: resolveBareModelId modelId → q = []) := by
  have hres : createModelRatingsLookup mo modelId =
      match (sortKeysLongestFirst ((effectiveMatrix mo).map (·.1))).find?
          (fun candidate => candidate.isPrefixOf (resolveBareModelId modelId)) with
      | some key => if key.isEmpty then none else objGet (effectiveMatrix mo) key
      | none => none := rfl
  set matrix := effectiveMatrix mo with hmatrix
  set keys := matrix.map (·.1) with hkeys
  set bare := resolveBareModelId modelId with hbare
  cases hf : (sortKeysLongestFirst keys).find? (fun candidate => candidate.isPrefixOf bare) with
  | none =>
    have hnone : ∀ q ∈ keys, ¬ q <+: bare := by
      intro q hq hqp
      have := List.find?_eq_none.mp hf q ((sortKeys_perm keys).mem_iff.mpr hq)
      exact this (List.isPrefixOf_iff_prefix.mpr hqp)
    rw [hf] at hres
    constructor
    · intro r hr
      rw [hres] at hr
      exact absurd hr (by simp)
    · constructor
      · intro _ q hq hqp
        exact absurd hqp (hnone q hq)
      · intro _
        exact hres
  | some key =>
    rw [hf] at hres
    have hkp0 := List.find?_some hf
    simp only [List.isPrefixOf_iff_prefix] at hkp0
    have hkp : key <+: bare := hkp0
    have hkmem : key ∈ keys :=
      (sortKeys_perm keys).mem_iff.mp (List.mem_of_find?_eq_some hf)
    have hmax : ∀ q ∈ keys, q <+: bare → q.length ≤ key.length := by
      intro q hq hqp
      exact find?_maximal_length _ _ (sortKeys_sorted keys) hf q
        ((sortKeys_perm keys).mem_iff.mpr hq)
        (List.isPrefixOf_iff_prefix.mpr hqp)
    by_cases hke : key = []
    · subst hke
      simp only [List.isEmpty_nil, if_true] at hres
      constructor
      · intro r hr
        rw [hres] at hr
        exact absurd hr (by simp)
      · constructor
        · intro _ q hq hqp
          have := hmax q hq hqp
          exact List.eq_nil_of_length_eq_zero (Nat.le_zero.mp this)
        · intro _
          exact hres
    · have hkeB : key.isEmpty = false := by
        cases key with
        | nil => exact absurd rfl hke
        | cons a t => rfl
      simp only [hkeB, Bool.false_eq_true, if_false] at hres
      rcases exists_objGet_of_mem_keys hkmem with ⟨v, hv⟩
      constructor
      · intro r hr
        rw [hres] at hr
        exact ⟨key, hr, objGet_mem hr, hke, hkp, hmax⟩
      · constructor
        · intro habs
          rw [hres, hv] at habs
          exact absurd habs (by simp)
        · intro hall
          exact absurd (hall key hkmem hkp) hke

/-- The base-matrix lookup resolves to `objGet MODEL_MATRIX k` whenever `k`
is a longest prefix key of the bare id. -/
theorem lookup_of_max_key (modelId k : Str) (hk : k ∈ MODEL_MATRIX.map (·.1))
    (hkne : k ≠ []) (hpref : k <+: resolveBareModelId modelId)
    (hmax : ∀ q ∈ MODEL_MATRIX.map (·.1),
      q <+: resolveBareModelId modelId → q.length ≤ k.length) :
    createModelRatingsLookup none modelId = objGet MODEL_MATRIX k := by
  rcases exists_objGet_of_mem_keys hk with ⟨v, hv⟩
  rcases (createModelRatingsLookup_spec none modelId) with ⟨hsome, hnone⟩
  cases hres : createModelRatingsLookup none modelId with
  | none =>
    have := hnone.mp hres k hk hpref
    exact absurd this hkne
  | some r =>
    rcases hsome r hres with ⟨k2, hobj, hk2mem, hk2ne, hk2p, hk2max⟩
    have hmem2 : k2 ∈ MODEL_MATRIX.map (·.1) :=
      List.mem_map.mpr ⟨(k2, r), hk2mem, rfl⟩
    have hlen : k2.length = k.length :=
      Nat.le_antisymm (hmax k2 hmem2 hk2p) (hk2max k hk hpref)
    have hkk : k2 = k := by
      rcases List.prefix_or_prefix_of_prefix hk2p hpref with h | h
      · exact h.eq_of_length hlen
      · exact (h.eq_of_length hlen.symm).symm
    subst hkk
    exact hobj.symm

theorem resolveBare_no_slash (l : Str) (h : '/' ∉ l) : resolveBareModelId l = l := by
  have hc : l.contains '/' = false := by simpa using h
  unfold resolveBareModelId
  simp [hc]
  intro hm
  exact absurd hm h

/-! ### Claims C1 and C2: matrix lookup -/

/-- C1 counterexample: the claim fails as stated.  With an override adding
an empty-string matrix key, the empty string is the (unique, hence longest)
matrix key that is a prefix of the bare id `"x"`, and it has a rating
entry, yet `getModelRatings` returns absent, because the JS falsy test
`key ? matrix[key] : undefined` treats the empty-string key like a missing
key. -/
theorem getModelRatings_empty_key_counterexample :
    getModelRatings (str "x") (some [(([] : Str), some (R (some 1) none none))]) = none ∧
    (([] : Str), R (some 1) none none) ∈
      effectiveMatrix (some [(([] : Str), some (R (some 1) none none))]) ∧
    ([] : Str) <+: resolveBareModelId (str "x") ∧
    ∀ q ∈ (effectiveMatrix (some [(([] : Str), some (R (some 1) none none))])).map (·.1),
      q <+: resolveBareModelId (str "x") → q.length ≤ ([] : Str).length := by
  decide

/-- C1 (amended): for every model id and override map, `getModelRatings`
returns the rating entry of the longest *nonempty* effective-matrix key
that is a prefix of the bare id (substring after the last `/`), and
returns absent exactly when no nonempty key is such a prefix; with keys
`"claude-haiku-4"` and `"claude-haiku-4-5"` both present,
`ratings("claude-haiku-4-5-20250514")` equals the `"claude-haiku-4-5"`
entry, never the shorter one. -/
theorem getModelRatings_longest_key (modelId : Str) (overrides : Option ModelMatrixOverrides) :
    (∀ r, getModelRatings modelId overrides = some r →
      ∃ k, objGet (effectiveMatrix overrides) k = some r ∧
        (k, r) ∈ effectiveMatrix overrides ∧ k ≠ [] ∧
        k <+: resolveBareModelId modelId ∧
        ∀ q ∈ (effectiveMatrix overrides).map (·.1),
          q <+: resolveBareModelId modelId → q.length ≤ k.length) ∧
    (getModelRatings modelId overrides = none ↔
      ∀ q ∈ (effectiveMatrix overrides).map (·.1),
        q <+: resolveBareModelId modelId → q = []) ∧
    getModelRatings (str "claude-haiku-4-5-20250514")
        (some [(str "claude-haiku-4", some (R (some 1) (some 1) (some 1)))]) =
      some (R (some 3) (some 2) (some 3)) := by
  refine ⟨(createModelRatingsLookup_spec overrides modelId).1,
    (createModelRatingsLookup_spec overrides modelId).2, ?_⟩
  decide

/-- Witness for C1 at the date-stamped Haiku id against the base matrix. -/
theorem getModelRatings_longest_key_witness :
    ∃ k, objGet (effectiveMatrix none) k = some (R (some 3) (some 2) (some 3)) ∧
      (k, R (some 3) (some 2) (some 3)) ∈ effectiveMatrix none ∧ k ≠ [] ∧
      k <+: resolveBareModelId (str "claude-haiku-4-5-20250514") ∧
      ∀ q ∈ (effectiveMatrix none).map (·.1),
        q <+: resolveBareModelId (str "claude-haiku-4-5-20250514") → q.length ≤ k.length :=
  (getModelRatings_longest_key (str "claude-haiku-4-5-20250514") none).1 _ (by decide)

/-- C2 counterexample: the claim fails as stated.  `"gpt-5"` is a matrix
key and `".1"` a suffix, but `ratings("gpt-5" + ".1")` resolves to the
longer sibling key `"gpt-5.1"`, whose entry differs from the `"gpt-5"`
entry. -/
theorem ratings_suffix_counterexample :
    (str "gpt-5", R (some 4) (some 4) (some 4)) ∈ MODEL_MATRIX ∧
    getModelRatings (str "gpt-5" ++ str ".1") none ≠ getModelRatings (str "gpt-5") none := by
  decide

/-- C2 (amended): for every base-matrix key `k` and suffix `s` that
contains no `/` and makes no longer matrix key a prefix of `k ++ s`,
`ratings(k ++ s)` equals `ratings(k)` — prefix matching is invariant
under such suffixes (e.g. date stamps). -/
theorem ratings_suffix_invariant (k : Str) (r : ModelRatings) (s : Str)
    (hk : (k, r) ∈ MODEL_MATRIX) (hs : '/' ∉ s)
    (hmax : ∀ q ∈ MODEL_MATRIX.map (·.1), q <+: (k ++ s) → q.length ≤ k.length) :
    getModelRatings (k ++ s) none = getModelRatings k none := by
  have hkmem : k ∈ MODEL_MATRIX.map (·.1) := List.mem_map.mpr ⟨(k, r), hk, rfl⟩
  have hfacts : ∀ q ∈ MODEL_MATRIX.map (·.1), q ≠ [] ∧ '/' ∉ q := by decide
  rcases hfacts k hkmem with ⟨hkne, hksl⟩
  have hnos : '/' ∉ k ++ s := by
    intro hmem
    rcases List.mem_append.mp hmem with h | h
    exacts [hksl h, hs h]
  have hbare1 : resolveBareModelId (k ++ s) = k ++ s := resolveBare_no_slash _ hnos
  have hbare2 : resolveBareModelId k = k := resolveBare_no_slash _ hksl
  have h1 : createModelRatingsLookup none (k ++ s) = objGet MODEL_MATRIX k := by
    apply lookup_of_max_key _ _ hkmem hkne
    · rw [hbare1]
      exact List.prefix_append k s
    · rw [hbare1]
      exact hmax
  have h2 : createModelRatingsLookup none k = objGet MODEL_MATRIX k := by
    apply lookup_of_max_key _ _ hkmem hkne
    · rw [hbare2]
    · rw [hbare2]
      intro q hq hqp
      exact hqp.length_le
  show createModelRatingsLookup none (k ++ s) = createModelRatingsLookup none k
  rw [h1, h2]

/-- Witness for C2 at the Haiku key with a date-stamp suffix. -/
theorem ratings_suffix_invariant_witness :
    getModelRatings (str "claude-haiku-4-5" ++ str "-20250514") none =
      getModelRatings (str "claude-haiku-4-5") none :=
  ratings_suffix_invariant (str "claude-haiku-4-5") (R (some 3) (some 2) (some 3))
    (str "-20250514") (by decide) (by decide) (by decide)

/-! ### Claim C3: resolver cascade -/

theorem maxScore_cons (score : CandidateModel → ℕ) (m : CandidateModel)
    (t : List CandidateModel) :
    maxScore score (m :: t) = max (score m) (maxScore score t) := rfl

theorem maxScore_attained (score : CandidateModel → ℕ) :
    ∀ l : List CandidateModel, 0 < maxScore score l →
      ∃ m ∈ l, score m = maxScore score l
  | [], h => by simp [maxScore] at h
  | m :: t, h => by
    rw [maxScore_cons] at h ⊢
    by_cases h2 : maxScore score t ≤ score m
    · exact ⟨m, List.mem_cons_self m t, (Nat.max_eq_left h2).symm⟩
    · have hlt : score m < maxScore score t := Nat.lt_of_not_le h2
      have hpos : 0 < maxScore score t := by omega
      rcases maxScore_attained score t hpos with ⟨m2, hm2, hs2⟩
      exact ⟨m2, List.mem_cons_of_mem m hm2, by omega⟩

theorem tokenLoop_eq (score : CandidateModel → ℕ) :
    ∀ (l : List CandidateModel) (b : ℕ) (acc : List CandidateModel),
      tokenLoop score l b acc =
        if b < maxScore score l then
          (maxScore score l, l.filter (fun m => score m == maxScore score l))
        else (b, if 0 < b then acc ++ l.filter (fun m => score m == b) else acc)
  | [], b, acc => by
    simp [tokenLoop, maxScore]
  | m :: t, b, acc => by
    rw [tokenLoop, maxScore_cons]
    rcases Nat.lt_trichotomy (score m) b with hlt | heqb | hgt
    · have h1 : ¬ score m > b := by omega
      have h2 : (score m == b) = false := by simp; omega
      simp only [gt_iff_lt, h1, if_false, h2, Bool.false_and, Bool.false_eq_true,
        if_false, tokenLoop_eq score t b acc]
      by_cases h3 : b < maxScore score t
      · have h4 : b < max (score m) (maxScore score t) := by omega
        have h5 : max (score m) (maxScore score t) = maxScore score t := by omega
        have h6 : (score m == maxScore score t) = false := by simp; omega
        simp [h3, h4, h5, List.filter_cons, h6]
      · have h4 : ¬ b < max (score m) (maxScore score t) := by omega
        simp only [h3, if_false, h4, if_false]
        by_cases h5 : 0 < b
        · have h6 : (score m == b) = false := by simp; omega
          simp [h5, List.filter_cons, h6]
        · simp [h5]
    · have h1 : ¬ score m > b := by omega
      have h2 : (score m == b) = true := by simp [heqb]
      simp only [gt_iff_lt, h1, if_false, h2, Bool.true_and]
      by_cases h3 : 0 < score m
      · have h3d : (decide (score m > 0)) = true := by simp [h3]
        simp only [gt_iff_lt, h3d, if_true, tokenLoop_eq score t b (acc ++ [m])]
        by_cases h4 : b < maxScore score t
        · have h5 : b < max (score m) (maxScore score t) := by omega
          have h6 : max (score m) (maxScore score t) = maxScore score t := by omega
          have h7 : (score m == maxScore score t) = false := by simp; omega
          simp [h4, h5, h6, List.filter_cons, h7]
        · have h5 : ¬ b < max (score m) (maxScore score t) := by omega
          have h6 : 0 < b := by omega
          have h7 : (score m == b) = true := by simp [heqb]
          simp [h4, h5, h6, List.filter_cons, h7]
      · have hb0 : b = 0 := by omega
        have hm0 : score m = 0 := by omega
        have h3d : (decide (score m > 0)) = false := by simp [hm0]
        simp only [gt_iff_lt, h3d, Bool.and_false, Bool.false_eq_true, if_false,
          tokenLoop_eq score t b acc]
        by_cases h4 : b < maxScore score t
        · have h5 : b < max (score m) (maxScore score t) := by omega
          have h6 : max (score m) (maxScore score t) = maxScore score t := by omega
          have h7 : (score m == maxScore score t) = false := by simp; omega
          simp [h4, h5, h6, List.filter_cons, h7]
        · have h5 : ¬ b < max (score m) (maxScore score t) := by omega
          have h6 : ¬ 0 < b := by omega
          simp [h4, h5, h6]
    · have h1 : score m > b := hgt
      simp only [gt_iff_lt, h1, if_true, tokenLoop_eq score t (score m) [m]]
      by_cases h2 : score m < maxScore score t
      · have h3 : b < max (score m) (maxScore score t) := by omega
        have h3b : b < maxScore score t := by omega
        have h4 : max (score m) (maxScore score t) = maxScore score t := by omega
        have h5 : (score m == maxScore score t) = false := by simp; omega
        simp [h2, h3, h3b, h4, List.filter_cons, h5]
      · have h3 : b < max (score m) (maxScore score t) := by omega
        have h4 : max (score m) (maxScore score t) = score m := by omega
        have h5 : 0 < score m := by omega
        have h6 : (score m == score m) = true := by simp
        simp [h2, h3, h4, h5, hgt, List.filter_cons, h6]

theorem tokenLoop_zero (qt : List Str) (models : List CandidateModel) :
    tokenLoop (tokenScore qt) models 0 [] =
      (maxScore (tokenScore qt) models, tierTokenSpec qt models) := by
  rw [tokenLoop_eq, tierTokenSpec]
  by_cases h : 0 < maxScore (tokenScore qt) models
  · simp [h]
  · have h0 : maxScore (tokenScore qt) models = 0 := by omega
    simp [h, h0]

theorem tierTokenSpec_ne_nil_iff (qt : List Str) (models : List CandidateModel) :
    tierTokenSpec qt models ≠ [] ↔ 0 < maxScore (tokenScore qt) models := by
  constructor
  · intro h
    by_contra hM
    have h0 : ¬ 0 < maxScore (tokenScore qt) models := hM
    simp [tierTokenSpec, h0] at h
  · intro hM
    rcases maxScore_attained (tokenScore qt) models hM with ⟨m, hm, hs⟩
    have : m ∈ tierTokenSpec qt models := by
      simp [tierTokenSpec, hM, List.mem_filter, hm, hs]
    intro hnil
    rw [hnil] at this
    exact absurd this (List.not_mem_nil m)

theorem maxScore_tokens_nil (models : List CandidateModel) :
    maxScore (tokenScore []) models = 0 := by
  induction models with
  | nil => rfl
  | cons m t ih =>
    rw [maxScore_cons, ih]
    have h0 : tokenScore [] m = 0 := rfl
    rw [h0]
    omega

theorem tierTokenSpec_nil (models : List CandidateModel) :
    tierTokenSpec [] models = [] := by
  simp [tierTokenSpec, maxScore_tokens_nil]

theorem firstNonEmptyChain_eq_find :
    ∀ ls : List (List CandidateModel),
      firstNonEmptyChain ls = (ls.find? (fun l => !l.isEmpty)).getD []
  | [] => rfl
  | t :: rest => by
    rw [firstNonEmptyChain]
    by_cases h : t = []
    · rw [if_neg (by simp [h]), List.find?_cons_of_neg _ (by simp [h])]
      exact firstNonEmptyChain_eq_find rest
    · rw [if_pos (List.length_pos.mpr h), List.find?_cons_of_pos _ (by simp [h])]
      rfl

theorem findCandidates_eq_cascade (query : Str) (models : List CandidateModel) :
    findCandidates query models = cascadeSpec query models := by
  unfold findCandidates cascadeSpec
  by_cases hm : models.length = 0
  · simp [hm]
  by_cases hq : (trimL query).length = 0
  · simp [hm, hq]
  have hms : (models.length == 0) = false := by simp [hm]
  have hqs : ((trimL query).length == 0) = false := by simp [hq]
  have htr : (if (tokenize (trimL query)).length > 0 then
        tokenLoop (tokenScore (tokenize (trimL query))) models 0 []
      else ((0 : ℕ), ([] : List CandidateModel))) =
      (maxScore (tokenScore (tokenize (trimL query))) models,
        tierTokenSpec (tokenize (trimL query)) models) := by
    by_cases ht : (tokenize (trimL query)).length > 0
    · rw [if_pos ht, tokenLoop_zero]
    · have htn : tokenize (trimL query) = [] := by
        cases h : tokenize (trimL query) with
        | nil => rfl
        | cons a t => rw [h] at ht; exact absurd (by simp) ht
      rw [if_neg ht, htn, tierTokenSpec_nil, maxScore_tokens_nil]
  rw [← firstNonEmptyChain_eq_find]
  simp only [hms, hqs, Bool.or_self, Bool.false_eq_true, if_false, Bool.or_false,
    Bool.false_or, htr, firstNonEmptyChain]
  by_cases h5 : tierTokenSpec (tokenize (trimL query)) models = []
  · have hM : ¬ 0 < maxScore (tokenScore (tokenize (trimL query))) models :=
      fun h => (tierTokenSpec_ne_nil_iff _ _).mpr h h5
    simp [h5, hM]
  · have hM : 0 < maxScore (tokenScore (tokenize (trimL query))) models :=
      (tierTokenSpec_ne_nil_iff _ _).mp h5
    have hlen : 0 < (tierTokenSpec (tokenize (trimL query)) models).length :=
      List.length_pos.mpr h5
    simp [hM, hlen]

/-- C3: for every query and candidate list, `findCandidates` (and hence
`resolveModelCandidates`) evaluates the tiers in the fixed order — exact
id, case-insensitive id, separator-insensitive id, provider/id split,
token-overlap best score, raw substring, separator-stripped substring —
and returns the complete match set of the first tier that yields at least
one match; an empty or whitespace-only query, or an empty source, yields
no candidates; `"GLM5"` against a pool containing `"glm-5"` is returned
by the separator-insensitive tier even though the raw-substring tier
would match a different candidate. -/
theorem findCandidates_cascade_order (query : Str) (models : List CandidateModel) :
    findCandidates query models = cascadeSpec query models ∧
    (trimL query = [] → findCandidates query models = []) ∧
    (models = [] → findCandidates query models = []) ∧
    resolveModelCandidates (str "GLM5") [glmA, glmB] = [toResolved glmA] ∧
    tierNorm (normalizeSeps (trimL (str "GLM5"))) [glmA, glmB] = [glmA] ∧
    tierSub (lowerL (trimL (str "GLM5"))) [glmA, glmB] = [glmB] := by
  refine ⟨findCandidates_eq_cascade query models, ?_, ?_, by decide, by decide, by decide⟩
  · intro h
    unfold findCandidates
    simp [h]
  · intro h
    unfold findCandidates
    simp [h]

/-- Witness for C3: a whitespace-only query yields no candidates. -/
theorem findCandidates_cascade_order_witness :
    findCandidates (str " ") [glmA] = [] :=
  (findCandidates_cascade_order (str " ") [glmA]).2.1 (by decide)

/-! ### Claim C8: numeric-aware tie-break in pickBest -/

theorem cmpPair_eq_iff (a b : ℕ × ℕ) : cmpPair a b = .eq ↔ a = b := by
  unfold cmpPair
  cases h : compare a.1 b.1 with
  | lt =>
    simp only
    constructor
    · intro h2
      exact absurd h2 (by simp)
    · intro h2
      rw [h2] at h
      rw [Nat.compare_eq_lt] at h
      omega
  | eq =>
    rw [Nat.compare_eq_eq] at h
    simp only [Nat.compare_eq_eq]
    constructor
    · intro h2
      exact Prod.ext h h2
    · intro h2
      rw [h2]
  | gt =>
    simp only
    constructor
    · intro h2
      exact absurd h2 (by simp)
    · intro h2
      rw [h2] at h
      rw [Nat.compare_eq_gt] at h
      omega

theorem cmpPair_swap (a b : ℕ × ℕ) : cmpPair b a = (cmpPair a b).swap := by
  unfold cmpPair
  rw [← Nat.compare_swap a.1 b.1, ← Nat.compare_swap a.2 b.2]
  cases compare a.1 b.1 <;> cases compare a.2 b.2 <;> rfl

theorem cmpPair_lt_trans {a b c : ℕ × ℕ}
    (h1 : cmpPair a b = .lt) (h2 : cmpPair b c = .lt) : cmpPair a c = .lt := by
  unfold cmpPair at h1 h2 ⊢
  cases ha : compare a.1 b.1 with
  | lt =>
    rw [Nat.compare_eq_lt] at ha
    cases hb : compare b.1 c.1 with
    | lt =>
      rw [Nat.compare_eq_lt] at hb
      have : compare a.1 c.1 = .lt := Nat.compare_eq_lt.mpr (by omega)
      rw [this]
    | eq =>
      rw [Nat.compare_eq_eq] at hb
      have : compare a.1 c.1 = .lt := Nat.compare_eq_lt.mpr (by omega)
      rw [this]
    | gt =>
      rw [hb] at h2
      simp at h2
  | eq =>
    rw [ha] at h1
    rw [Nat.compare_eq_eq] at ha
    cases hb : compare b.1 c.1 with
    | lt =>
      rw [Nat.compare_eq_lt] at hb
      have : compare a.1 c.1 = .lt := Nat.compare_eq_lt.mpr (by omega)
      rw [this]
    | eq =>
      rw [hb] at h2
      rw [Nat.compare_eq_eq] at hb
      have hac : compare a.1 c.1 = .eq := Nat.compare_eq_eq.mpr (by omega)
      rw [hac]
      rw [Nat.compare_eq_lt] at h1 h2 ⊢
      omega
    | gt =>
      rw [hb] at h2
      simp at h2
  | gt =>
    rw [ha] at h1
    simp at h1

theorem cmpToks_eq_iff : ∀ x y : List (ℕ × ℕ), cmpToks x y = .eq ↔ x = y
  | [], [] => by simp [cmpToks]
  | [], b :: bs => by simp [cmpToks]
  | a :: as, [] => by simp [cmpToks]
  | a :: as, b :: bs => by
    rw [cmpToks]
    cases h : cmpPair a b with
    | eq =>
      have hab : a = b := (cmpPair_eq_iff a b).mp h
      simp only [hab, cmpToks_eq_iff as bs, List.cons.injEq, true_and]
    | lt =>
      simp only
      constructor
      · intro h2
        exact absurd h2 (by simp)
      · intro h2
        rcases List.cons.injEq .. ▸ h2 with ⟨rfl, rfl⟩
        rw [(cmpPair_eq_iff a a).mpr rfl] at h
        exact absurd h (by simp)
    | gt =>
      simp only
      constructor
      · intro h2
        exact absurd h2 (by simp)
      · intro h2
        rcases List.cons.injEq .. ▸ h2 with ⟨rfl, rfl⟩
        rw [(cmpPair_eq_iff a a).mpr rfl] at h
        exact absurd h (by simp)

theorem cmpToks_swap : ∀ x y : List (ℕ × ℕ), cmpToks y x = (cmpToks x y).swap
  | [], [] => rfl
  | [], b :: bs => rfl
  | a :: as, [] => rfl
  | a :: as, b :: bs => by
    rw [cmpToks, cmpToks, cmpPair_swap]
    cases cmpPair a b with
    | lt => rfl
    | gt => rfl
    | eq => exact cmpToks_swap as bs

theorem cmpToks_lt_trans : ∀ {x y z : List (ℕ × ℕ)},
    cmpToks x y = .lt → cmpToks y z = .lt → cmpToks x z = .lt
  | [], [], _, h1, _ => by simp [cmpToks] at h1
  | [], _ :: _, [], _, h2 => by simp [cmpToks] at h2
  | [], _ :: _, _ :: _, _, _ => rfl
  | _ :: _, [], _, h1, _ => by simp [cmpToks] at h1
  | _ :: _, _ :: _, [], _, h2 => by simp [cmpToks] at h2
  | a :: as, b :: bs, c :: cs, h1, h2 => by
    rw [cmpToks] at h1 h2 ⊢
    cases hab : cmpPair a b with
    | gt => rw [hab] at h1; simp at h1
    | lt =>
      cases hbc : cmpPair b c with
      | gt => rw [hbc] at h2; simp at h2
      | lt => rw [cmpPair_lt_trans hab hbc]
      | eq =>
        have : b = c := (cmpPair_eq_iff b c).mp hbc
        rw [← this, hab]
    | eq =>
      have hab2 : a = b := (cmpPair_eq_iff a b).mp hab
      rw [hab] at h1
      cases hbc : cmpPair b c with
      | gt => rw [hbc] at h2; simp at h2
      | lt => rw [hab2, hbc]
      | eq =>
        rw [hbc] at h2
        rw [hab2, hbc]
        exact cmpToks_lt_trans h1 h2

theorem char_toNat_inj {a b : Char} (h : a.toNat = b.toNat) : a = b := by
  apply Char.ext
  exact UInt32.toNat.inj h

theorem cmpStr_eq_iff : ∀ x y : Str, cmpStr x y = .eq ↔ x = y
  | [], [] => by simp [cmpStr]
  | [], b :: bs => by simp [cmpStr]
  | a :: as, [] => by simp [cmpStr]
  | a :: as, b :: bs => by
    rw [cmpStr]
    cases h : compare a.toNat b.toNat with
    | eq =>
      have hab : a = b := char_toNat_inj (Nat.compare_eq_eq.mp h)
      simp only [hab, cmpStr_eq_iff as bs, List.cons.injEq, true_and]
    | lt =>
      simp only
      constructor
      · intro h2
        exact absurd h2 (by simp)
      · intro h2
        rcases List.cons.injEq .. ▸ h2 with ⟨rfl, rfl⟩
        rw [Nat.compare_eq_eq.mpr rfl] at h
        exact absurd h (by simp)
    | gt =>
      simp only
      constructor
      · intro h2
        exact absurd h2 (by simp)
      · intro h2
        rcases List.cons.injEq .. ▸ h2 with ⟨rfl, rfl⟩
        rw [Nat.compare_eq_eq.mpr rfl] at h
        exact absurd h (by simp)

theorem cmpStr_swap : ∀ x y : Str, cmpStr y x = (cmpStr x y).swap
  | [], [] => rfl
  | [], b :: bs => rfl
  | a :: as, [] => rfl
  | a :: as, b :: bs => by
    rw [cmpStr, cmpStr, ← Nat.compare_swap a.toNat b.toNat]
    cases compare a.toNat b.toNat with
    | lt => rfl
    | gt => rfl
    | eq => exact cmpStr_swap as bs

theorem cmpStr_lt_trans : ∀ {x y z : Str},
    cmpStr x y = .lt → cmpStr y z = .lt → cmpStr x z = .lt
  | [], [], _, h1, _ => by simp [cmpStr] at h1
  | [], _ :: _, [], _, h2 => by simp [cmpStr] at h2
  | [], _ :: _, _ :: _, _, _ => rfl
  | _ :: _, [], _, h1, _ => by simp [cmpStr] at h1
  | _ :: _, _ :: _, [], _, h2 => by simp [cmpStr] at h2
  | a :: as, b :: bs, c :: cs, h1, h2 => by
    rw [cmpStr] at h1 h2 ⊢
    cases hab : compare a.toNat b.toNat with
    | gt => rw [hab] at h1; simp at h1
    | lt =>
      rw [Nat.compare_eq_lt] at hab
      cases hbc : compare b.toNat c.toNat with
      | gt => rw [hbc] at h2; simp at h2
      | lt =>
        rw [Nat.compare_eq_lt] at hbc
        rw [Nat.compare_eq_lt.mpr (show a.toNat < c.toNat by omega)]
      | eq =>
        rw [Nat.compare_eq_eq] at hbc
        rw [Nat.compare_eq_lt.mpr (show a.toNat < c.toNat by omega)]
    | eq =>
      rw [hab] at h1
      rw [Nat.compare_eq_eq] at hab
      cases hbc : compare b.toNat c.toNat with
      | gt => rw [hbc] at h2; simp at h2
      | lt =>
        rw [Nat.compare_eq_lt] at hbc
        rw [Nat.compare_eq_lt.mpr (show a.toNat < c.toNat by omega)]
      | eq =>
        rw [hbc] at h2
        rw [Nat.compare_eq_eq] at hbc
        rw [Nat.compare_eq_eq.mpr (show a.toNat = c.toNat by omega)]
        exact cmpStr_lt_trans h1 h2

theorem strGe_refl (a : Str) : strGe a a = true := by
  unfold strGe
  rw [(cmpStr_eq_iff a a).mpr rfl]

theorem strGe_total (a b : Str) : strGe a b = true ∨ strGe b a = true := by
  unfold strGe
  cases h : cmpStr a b with
  | lt =>
    right
    have h2 : cmpStr b a = .gt := by rw [cmpStr_swap a b, h]; rfl
    rw [h2]
  | eq => left; rfl
  | gt => left; rfl

theorem strGe_trans {a b c : Str} (h1 : strGe a b = true) (h2 : strGe b c = true) :
    strGe a c = true := by
  unfold strGe at h1 h2 ⊢
  cases hab : cmpStr a b with
  | lt => rw [hab] at h1; exact absurd h1 (by simp)
  | eq =>
    have : a = b := (cmpStr_eq_iff a b).mp hab
    rw [this]
    exact h2
  | gt =>
    cases hbc : cmpStr b c with
    | lt => rw [hbc] at h2; exact absurd h2 (by simp)
    | eq =>
      have : b = c := (cmpStr_eq_iff b c).mp hbc
      rw [← this, hab]
    | gt =>
      have hba : cmpStr b a = .lt := by
        rw [cmpStr_swap, hab]; rfl
      have hcb : cmpStr c b = .lt := by
        rw [cmpStr_swap, hbc]; rfl
      have := cmpStr_lt_trans hcb hba
      rw [cmpStr_swap, this]
      rfl

theorem compareModelIds_pos_iff (a b : Str) :
    0 < compareModelIds a b ↔ cmpToks (ntoks a) (ntoks b) = .gt := by
  unfold compareModelIds
  cases h : cmpToks (ntoks a) (ntoks b) <;> simp

theorem compareModelIds_zero_iff (a b : Str) :
    compareModelIds a b = 0 ↔ ntoks a = ntoks b := by
  unfold compareModelIds
  rw [← cmpToks_eq_iff]
  cases h : cmpToks (ntoks a) (ntoks b) <;> simp

theorem compareModelIds_neg_iff (a b : Str) :
    compareModelIds a b < 0 ↔ cmpToks (ntoks a) (ntoks b) = .lt := by
  unfold compareModelIds
  cases h : cmpToks (ntoks a) (ntoks b) <;> simp

theorem winsPick_refl (a : CandidateModel) : winsPick a a := by
  right
  refine ⟨rfl, ?_⟩
  right
  refine ⟨(compareModelIds_zero_iff a.id a.id).mpr rfl, ?_⟩
  right
  exact ⟨rfl, strGe_refl a.id⟩

theorem winsPick_total (a b : CandidateModel) : winsPick a b ∨ winsPick b a := by
  rcases lt_trichotomy (capabilityScore a.id) (capabilityScore b.id) with hc | hc | hc
  · right; left; exact hc
  · cases h : cmpToks (ntoks a.id) (ntoks b.id) with
    | gt =>
      left; right
      exact ⟨hc, Or.inl ((compareModelIds_pos_iff a.id b.id).mpr h)⟩
    | lt =>
      right; right
      refine ⟨hc.symm, Or.inl ?_⟩
      rw [compareModelIds_pos_iff, cmpToks_swap, h]
      rfl
    | eq =>
      have he : ntoks a.id = ntoks b.id := (cmpToks_eq_iff _ _).mp h
      have hz1 : compareModelIds a.id b.id = 0 := (compareModelIds_zero_iff _ _).mpr he
      have hz2 : compareModelIds b.id a.id = 0 := (compareModelIds_zero_iff _ _).mpr he.symm
      rcases Nat.lt_trichotomy a.id.length b.id.length with hl | hl | hl
      · left; right
        exact ⟨hc, Or.inr ⟨hz1, Or.inl hl⟩⟩
      · rcases strGe_total a.id b.id with hg | hg
        · left; right
          exact ⟨hc, Or.inr ⟨hz1, Or.inr ⟨hl, hg⟩⟩⟩
        · right; right
          exact ⟨hc.symm, Or.inr ⟨hz2, Or.inr ⟨hl.symm, hg⟩⟩⟩
      · right; right
        exact ⟨hc.symm, Or.inr ⟨hz2, Or.inl hl⟩⟩
  · left; left; exact hc

theorem winsPick_trans {a b c : CandidateModel}
    (h1 : winsPick a b) (h2 : winsPick b c) : winsPick a c := by
  rcases h1 with hc1 | ⟨he1, hr1⟩
  · rcases h2 with hc2 | ⟨he2, hr2⟩
    · left; exact lt_trans hc2 hc1
    · left; rw [← he2]; exact hc1
  · rcases h2 with hc2 | ⟨he2, hr2⟩
    · left; rw [he1]; exact hc2
    · right
      refine ⟨he1.trans he2, ?_⟩
      rcases hr1 with hg1 | ⟨hz1, hl1⟩
      · rcases hr2 with hg2 | ⟨hz2, hl2⟩
        · left
          rw [compareModelIds_pos_iff] at hg1 hg2 ⊢
          have hlt1 : cmpToks (ntoks b.id) (ntoks a.id) = .lt := by
            rw [cmpToks_swap, hg1]; rfl
          have hlt2 : cmpToks (ntoks c.id) (ntoks b.id) = .lt := by
            rw [cmpToks_swap, hg2]; rfl
          have := cmpToks_lt_trans hlt2 hlt1
          rw [cmpToks_swap, this]
          rfl
        · left
          rw [compareModelIds_zero_iff] at hz2
          rw [compareModelIds_pos_iff] at hg1 ⊢
          rw [← hz2]
          exact hg1
      · rcases hr2 with hg2 | ⟨hz2, hl2⟩
        · left
          rw [compareModelIds_zero_iff] at hz1
          rw [compareModelIds_pos_iff] at hg2 ⊢
          rw [hz1]
          exact hg2
        · right
          rw [compareModelIds_zero_iff] at hz1 hz2
          refine ⟨(compareModelIds_zero_iff _ _).mpr (hz1.trans hz2), ?_⟩
          rcases hl1 with hlen1 | ⟨hle1, hge1⟩
          · rcases hl2 with hlen2 | ⟨hle2, hge2⟩
            · left; omega
            · left; omega
          · rcases hl2 with hlen2 | ⟨hle2, hge2⟩
            · left; omega
            · right
              exact ⟨hle1.trans hle2, strGe_trans hge1 hge2⟩

theorem pick2_wins_left (a b : CandidateModel) (h : winsPick a b) : pick2 a b = a := by
  unfold pick2
  simp only [gt_iff_lt]
  rcases h with hlt | ⟨heq, hr⟩
  · have hne : (capabilityScore a.id != capabilityScore b.id) = true := by
      simp only [bne_iff_ne, ne_eq]
      exact ((ne_of_lt hlt).symm : capabilityScore a.id ≠ capabilityScore b.id)
    rw [hne]
    simp only [if_true]
    rw [if_pos hlt]
  · have hne : (capabilityScore a.id != capabilityScore b.id) = false := by
      simp [heq]
    rw [hne]
    simp only [Bool.false_eq_true, if_false]
    rcases hr with hgt | ⟨hc0, hr2⟩
    · have h1 : (compareModelIds a.id b.id != 0) = true := by
        simp only [bne_iff_ne, ne_eq]
        omega
      rw [h1]
      simp only [if_true]
      rw [if_pos hgt]
    · have h1 : (compareModelIds a.id b.id != 0) = false := by
        simp [hc0]
      rw [h1]
      simp only [Bool.false_eq_true, if_false]
      rcases hr2 with hlen | ⟨hle, hge⟩
      · have h2 : (a.id.length != b.id.length) = true := by
          simp only [bne_iff_ne, ne_eq]
          omega
        rw [h2]
        simp only [if_true]
        rw [if_pos hlen]
      · have h2 : (a.id.length != b.id.length) = false := by
          simp [hle]
        rw [h2]
        simp only [Bool.false_eq_true, if_false]
        rw [hge]
        simp only [if_true]

theorem pick2_not_wins (a b : CandidateModel) (h : ¬ winsPick a b) : pick2 a b = b := by
  unfold winsPick at h
  push_neg at h
  rcases h with ⟨hnc, hrest⟩
  unfold pick2
  simp only [gt_iff_lt]
  by_cases heq : capabilityScore a.id = capabilityScore b.id
  · rcases hrest heq with ⟨hncmp, hrest2⟩
    have hne : (capabilityScore a.id != capabilityScore b.id) = false := by simp [heq]
    rw [hne]
    simp only [Bool.false_eq_true, if_false]
    by_cases hc0 : compareModelIds a.id b.id = 0
    · rcases hrest2 hc0 with ⟨hnlen, hrest3⟩
      have h1 : (compareModelIds a.id b.id != 0) = false := by simp [hc0]
      rw [h1]
      simp only [Bool.false_eq_true, if_false]
      by_cases hle : a.id.length = b.id.length
      · have h2 : (a.id.length != b.id.length) = false := by simp [hle]
        rw [h2]
        simp only [Bool.false_eq_true, if_false]
        have h3 : strGe a.id b.id = false := by
          cases h4 : strGe a.id b.id with
          | false => rfl
          | true => exact absurd h4 (hrest3 hle)
        rw [h3]
        simp only [Bool.false_eq_true, if_false]
      · have h2 : (a.id.length != b.id.length) = true := by simp [hle]
        rw [h2]
        simp only [if_true]
        have h3 : ¬ a.id.length < b.id.length := by omega
        rw [if_neg h3]
    · have h1 : (compareModelIds a.id b.id != 0) = true := by simp [hc0]
      rw [h1]
      simp only [if_true]
      have h2 : ¬ 0 < compareModelIds a.id b.id := by omega
      rw [if_neg h2]
  · have hne : (capabilityScore a.id != capabilityScore b.id) = true := by simp [heq]
    rw [hne]
    simp only [if_true]
    have h2 : ¬ capabilityScore b.id < capabilityScore a.id := not_lt.mpr hnc
    rw [if_neg h2]

theorem pick2_wins_both (a b : CandidateModel) :
    winsPick (pick2 a b) a ∧ winsPick (pick2 a b) b := by
  by_cases h : winsPick a b
  · rw [pick2_wins_left a b h]
    exact ⟨winsPick_refl a, h⟩
  · rw [pick2_not_wins a b h]
    rcases winsPick_total a b with h2 | h2
    · exact absurd h2 h
    · exact ⟨h2, winsPick_refl b⟩

theorem foldl_pick2_spec : ∀ (t : List CandidateModel) (a : CandidateModel),
    t.foldl pick2 a ∈ a :: t ∧ ∀ x ∈ a :: t, winsPick (t.foldl pick2 a) x
  | [], a => by
    constructor
    · simp
    · intro x hx
      have hxa : x = a := by simpa using hx
      rw [hxa]
      exact winsPick_refl a
  | b :: t, a => by
    rw [List.foldl_cons]
    rcases foldl_pick2_spec t (pick2 a b) with ⟨hmem, hwins⟩
    rcases pick2_wins_both a b with ⟨hwa, hwb⟩
    constructor
    · rcases List.mem_cons.mp hmem with heq | hm
      · have hab : pick2 a b = a ∨ pick2 a b = b := by
          by_cases h : winsPick a b
          · exact Or.inl (pick2_wins_left a b h)
          · exact Or.inr (pick2_not_wins a b h)
        rcases hab with h2 | h2 <;> rw [heq, h2] <;> simp
      · exact List.mem_cons_of_mem a (List.mem_cons_of_mem b hm)
    · intro x hx
      have hwab : winsPick (t.foldl pick2 (pick2 a b)) (pick2 a b) :=
        hwins _ (List.mem_cons_self _ _)
      rcases List.mem_cons.mp hx with rfl | hx2
      · exact winsPick_trans hwab hwa
      · rcases List.mem_cons.mp hx2 with rfl | hx3
        · exact winsPick_trans hwab hwb
        · exact hwins x (List.mem_cons_of_mem _ hx3)

/-- C8: when candidates tie on summed capability score, `pickBestModel`
(and hence `pickBest`/`resolveModelFuzzy`) never returns a candidate whose
id loses the numeric-aware comparison to another tied candidate: the
winner has maximal capability and, among capability ties, a
numeric-aware-maximal id; concretely, with `"model-5.2-pro"` and
`"model-5.10-pro"` of equal capability, `resolveModelFuzzy("model", pool)`
returns `"model-5.10-pro"` because `"5.10"` sorts after `"5.2"`. -/
theorem pickBest_numeric_tiebreak (models : List CandidateModel) (w : CandidateModel)
    (h : pickBestModel models = some w) :
    (w ∈ models ∧ ∀ x ∈ models,
      capabilityScore x.id < capabilityScore w.id ∨
      (capabilityScore x.id = capabilityScore w.id ∧ compareModelIds x.id w.id ≤ 0)) ∧
    capabilityScore m52.id = capabilityScore m510.id ∧
    compareModelIds m52.id m510.id < 0 ∧
    resolveModelFuzzy (str "model") [m52, m510] none = some (toResolved m510) := by
  refine ⟨?_, by decide, by decide, by decide⟩
  cases models with
  | nil => simp [pickBestModel] at h
  | cons a t =>
    rw [pickBestModel] at h
    have hw : t.foldl pick2 a = w := by simpa using h
    rcases foldl_pick2_spec t a with ⟨hmem, hwins⟩
    rw [hw] at hmem hwins
    refine ⟨hmem, ?_⟩
    intro x hx
    have hwx := hwins x hx
    rcases hwx with hlt | ⟨heq, hr⟩
    · left
      exact hlt
    · right
      refine ⟨heq.symm, ?_⟩
      rcases hr with hgt | ⟨h0, _⟩
      · rw [compareModelIds_pos_iff] at hgt
        have hneg : compareModelIds x.id w.id < 0 := by
          rw [compareModelIds_neg_iff, cmpToks_swap, hgt]
          rfl
        omega
      · have h00 : compareModelIds x.id w.id = 0 := by
          rw [compareModelIds_zero_iff] at h0 ⊢
          exact h0.symm
        omega

/-- Witness for C8 at the two-candidate numeric tie-break pool. -/
theorem pickBest_numeric_tiebreak_witness :
    (m510 ∈ [m52, m510] ∧ ∀ x ∈ [m52, m510],
      capabilityScore x.id < capabilityScore m510.id ∨
      (capabilityScore x.id = capabilityScore m510.id ∧
        compareModelIds x.id m510.id ≤ 0)) ∧
    capabilityScore m52.id = capabilityScore m510.id ∧
    compareModelIds m52.id m510.id < 0 ∧
    resolveModelFuzzy (str "model") [m52, m510] none = some (toResolved m510) :=
  pickBest_numeric_tiebreak [m52, m510] m510 (by decide)

/-! ### Claims C6 and C7: sanitizers -/

theorem parseFiniteNumber_some_iff (v : JVal) (q : ℚ) :
    parseFiniteNumber v = some q ↔ v = .vnum (.fin q) := by
  cases v with
  | vnum n => cases n <;> simp [parseFiniteNumber]
  | vundef => simp [parseFiniteNumber]
  | vnull => simp [parseFiniteNumber]
  | vbool b => simp [parseFiniteNumber]
  | vstr s => simp [parseFiniteNumber]
  | varr l => simp [parseFiniteNumber]
  | vobj f => simp [parseFiniteNumber]

theorem parseNonNegativeNumber_some_iff (v : JVal) (q : ℚ) :
    parseNonNegativeNumber v = some q ↔ v = .vnum (.fin q) ∧ 0 ≤ q := by
  unfold parseNonNegativeNumber
  cases h : parseFiniteNumber v with
  | none =>
    constructor
    · intro h2
      exact absurd h2 (by simp)
    · rintro ⟨he, _⟩
      rw [(parseFiniteNumber_some_iff v q).mpr he] at h
      exact absurd h (by simp)
  | some x =>
    have hx : v = .vnum (.fin x) := (parseFiniteNumber_some_iff v x).mp h
    subst hx
    by_cases hneg : x < 0
    · simp only [hneg, if_true]
      constructor
      · intro h2
        exact absurd h2 (by simp)
      · rintro ⟨he, hq⟩
        have : x = q := by simpa using he
        subst this
        linarith
    · simp only [hneg, if_false]
      constructor
      · intro h2
        have : x = q := by simpa using h2
        subst this
        exact ⟨rfl, le_of_not_lt hneg⟩
      · rintro ⟨he, _⟩
        have : x = q := by simpa using he
        rw [this]

theorem parseUnitIntervalNumber_some_iff (v : JVal) (q : ℚ) :
    parseUnitIntervalNumber v = some q ↔ v = .vnum (.fin q) ∧ 0 ≤ q ∧ q ≤ 1 := by
  unfold parseUnitIntervalNumber
  cases h : parseFiniteNumber v with
  | none =>
    constructor
    · intro h2
      exact absurd h2 (by simp)
    · rintro ⟨he, _⟩
      rw [(parseFiniteNumber_some_iff v q).mpr he] at h
      exact absurd h (by simp)
  | some x =>
    have hx : v = .vnum (.fin x) := (parseFiniteNumber_some_iff v x).mp h
    subst hx
    by_cases hout : x < 0 ∨ x > 1
    · simp only [hout, if_true]
      constructor
      · intro h2
        exact absurd h2 (by simp)
      · rintro ⟨he, h0, h1⟩
        have : x = q := by simpa using he
        subst this
        rcases hout with h2 | h2 <;> linarith
    · simp only [hout, if_false]
      push_neg at hout
      constructor
      · intro h2
        have : x = q := by simpa using h2
        subst this
        exact ⟨rfl, hout.1, hout.2⟩
      · rintro ⟨he, _, _⟩
        have : x = q := by simpa using he
        rw [this]

theorem parseTaskFloor_some_iff (v : JVal) (q : ℚ) :
    parseTaskFloor v = some q ↔ v = .vnum (.fin q) ∧ 1 ≤ q ∧ q ≤ 5 := by
  unfold parseTaskFloor
  cases hf : parseFiniteNumber v with
  | none =>
    constructor
    · intro h2
      exact absurd h2 (by simp)
    · rintro ⟨he, _⟩
      rw [(parseFiniteNumber_some_iff v q).mpr he] at hf
      exact absurd hf (by simp)
  | some x =>
    have hx : v = .vnum (.fin x) := (parseFiniteNumber_some_iff v x).mp hf
    subst hx
    show (if 1 ≤ x ∧ x ≤ 5 then some x else none) = some q ↔
      JVal.vnum (JNum.fin x) = JVal.vnum (JNum.fin q) ∧ 1 ≤ q ∧ q ≤ 5
    by_cases hin : 1 ≤ x ∧ x ≤ 5
    · rw [if_pos hin]
      constructor
      · intro h2
        have hxq : x = q := by simpa using h2
        subst hxq
        exact ⟨rfl, hin⟩
      · rintro ⟨he, _⟩
        have hxq : x = q := by simpa using he
        rw [hxq]
    · rw [if_neg hin]
      constructor
      · intro h2
        exact absurd h2 (by simp)
      · rintro ⟨he, h1, h5⟩
        have hxq : x = q := by simpa using he
        subst hxq
        exact absurd ⟨h1, h5⟩ hin

theorem objSet_mem_values {α : Type} {l : Obj α} {k : Str} {v : α} {kv : Str × α}
    (h : kv ∈ objSet l k v) : kv.2 = v ∨ kv ∈ l := by
  unfold objSet at h
  by_cases ha : l.any (fun p => p.1 == k)
  · rw [if_pos ha] at h
    rcases List.mem_map.mp h with ⟨p, hp, hpe⟩
    by_cases hcond : (p.1 == k) = true
    · rw [if_pos hcond] at hpe
      left
      rw [← hpe]
    · rw [if_neg hcond] at hpe
      right
      rw [← hpe]
      exact hp
  · rw [if_neg ha] at h
    rcases List.mem_append.mp h with h2 | h2
    · right
      exact h2
    · left
      have : kv = (k, v) := by simpa using h2
      rw [this]

theorem routesFold_values :
    ∀ (entries : List (Str × JVal)) (acc : List (Str × RoutingRouteSignal)),
      (∀ kv ∈ acc, ∃ raw, sanitizeRoutingRouteSignal raw = some kv.2) →
      ∀ kv ∈ entries.foldl (fun acc e =>
          match parseRouteSignalKey e.1 with
          | none => acc
          | some parsedKey =>
            match sanitizeRoutingRouteSignal e.2 with
            | none => acc
            | some sig =>
              objSet acc (buildRouteSignalKey parsedKey.provider parsedKey.modelId) sig) acc,
        ∃ raw, sanitizeRoutingRouteSignal raw = some kv.2
  | [], acc, hacc => hacc
  | e :: t, acc, hacc => by
    rw [List.foldl_cons]
    cases hk : parseRouteSignalKey e.1 with
    | none =>
      simp only [hk]
      exact routesFold_values t acc hacc
    | some parsedKey =>
      simp only [hk]
      cases hs : sanitizeRoutingRouteSignal e.2 with
      | none =>
        simp only [hs]
        exact routesFold_values t acc hacc
      | some sig =>
        simp only [hs]
        apply routesFold_values t
        intro kv hkv
        rcases objSet_mem_values hkv with hv | hv
        · exact ⟨e.2, by rw [hs, hv]⟩
        · exact hacc kv hv

theorem sanitizeRoutesMap_values (routeFields : List (Str × JVal)) :
    ∀ kv ∈ sanitizeRoutesMap routeFields,
      ∃ raw, sanitizeRoutingRouteSignal raw = some kv.2 := by
  unfold sanitizeRoutesMap
  exact routesFold_values routeFields [] (by intro kv hkv; exact absurd hkv (List.not_mem_nil kv))

theorem sanitizeRouteSignal_bounds {raw : JVal} {sig : RoutingRouteSignal}
    (h : sanitizeRoutingRouteSignal raw = some sig) :
    0 ≤ sig.observedAtMs ∧
    (∀ q, sig.errorRate = some q → 0 ≤ q ∧ q ≤ 1) ∧
    (∀ q, sig.fallbackRate = some q → 0 ≤ q ∧ q ≤ 1) ∧
    (∀ q, sig.uptime = some q → 0 ≤ q ∧ q ≤ 1) := by
  cases raw with
  | vobj fields =>
    rw [sanitizeRoutingRouteSignal] at h
    cases hobs : parseNonNegativeNumber (jget fields (str "observedAtMs")) with
    | none => rw [hobs] at h; exact absurd h (by simp)
    | some obs =>
      rw [hobs] at h
      have hx := Option.some.inj h
      subst hx
      refine ⟨((parseNonNegativeNumber_some_iff _ obs).mp hobs).2, ?_, ?_, ?_⟩
      · intro q hq
        exact ((parseUnitIntervalNumber_some_iff _ q).mp hq).2
      · intro q hq
        exact ((parseUnitIntervalNumber_some_iff _ q).mp hq).2
      · intro q hq
        exact ((parseUnitIntervalNumber_some_iff _ q).mp hq).2
  | vundef => exact absurd h (by simp [sanitizeRoutingRouteSignal])
  | vnull => exact absurd h (by simp [sanitizeRoutingRouteSignal])
  | vbool b => exact absurd h (by simp [sanitizeRoutingRouteSignal])
  | vnum n => exact absurd h (by simp [sanitizeRoutingRouteSignal])
  | vstr s => exact absurd h (by simp [sanitizeRoutingRouteSignal])
  | varr l => exact absurd h (by simp [sanitizeRoutingRouteSignal])

/-- C7: `sanitizeRoutingSignalsSnapshot` returns absent exactly when the
input is not an object with a finite non-negative `generatedAtMs`; every
retained route entry has a finite non-negative `observedAtMs` and
rate-type fields in `[0, 1]`; a retained rate value is the raw input
value (dropped when out of range, never clamped); and a `routes` or
`models` map that ends up empty is omitted rather than kept as an empty
object. -/
theorem sanitizeSnapshot_spec (v : JVal) :
    ((sanitizeRoutingSignalsSnapshot v).isSome = true ↔
      ∃ fields q, v = .vobj fields ∧
        parseNonNegativeNumber (jget fields (str "generatedAtMs")) = some q) ∧
    (∀ s, sanitizeRoutingSignalsSnapshot v = some s →
      0 ≤ s.generatedAtMs ∧ s.routes ≠ some [] ∧ s.models ≠ some [] ∧
      ∀ kv ∈ s.routes.getD [], 0 ≤ kv.2.observedAtMs ∧
        (∀ q, kv.2.errorRate = some q → 0 ≤ q ∧ q ≤ 1) ∧
        (∀ q, kv.2.fallbackRate = some q → 0 ≤ q ∧ q ≤ 1) ∧
        (∀ q, kv.2.uptime = some q → 0 ≤ q ∧ q ≤ 1)) ∧
    (∀ rfields sig, sanitizeRoutingRouteSignal (.vobj rfields) = some sig →
      sig.errorRate = parseUnitIntervalNumber (jget rfields (str "errorRate")) ∧
      ∀ q, sig.errorRate = some q →
        jget rfields (str "errorRate") = .vnum (.fin q) ∧ 0 ≤ q ∧ q ≤ 1) := by
  refine ⟨?_, ?_, ?_⟩
  · cases v with
    | vobj fields =>
      rw [sanitizeRoutingSignalsSnapshot]
      cases hg : parseNonNegativeNumber (jget fields (str "generatedAtMs")) with
      | none =>
        simp only [hg, Option.isSome_none, Bool.false_eq_true, false_iff]
        rintro ⟨f2, q, hfe, hp⟩
        have hf2 : f2 = fields := by
          have := hfe
          injection this with h2
          exact h2.symm
        rw [hf2] at hp
        rw [hp] at hg
        exact absurd hg (by simp)
      | some g =>
        simp only [hg, Option.isSome_some, true_iff]
        exact ⟨fields, g, rfl, hg⟩
    | vundef =>
      simp only [sanitizeRoutingSignalsSnapshot, Option.isSome_none,
        Bool.false_eq_true, false_iff]
      rintro ⟨f2, q, hfe, hp⟩
      exact JVal.noConfusion hfe
    | vnull =>
      simp only [sanitizeRoutingSignalsSnapshot, Option.isSome_none,
        Bool.false_eq_true, false_iff]
      rintro ⟨f2, q, hfe, hp⟩
      exact JVal.noConfusion hfe
    | vbool b =>
      simp only [sanitizeRoutingSignalsSnapshot, Option.isSome_none,
        Bool.false_eq_true, false_iff]
      rintro ⟨f2, q, hfe, hp⟩
      exact JVal.noConfusion hfe
    | vnum n =>
      simp only [sanitizeRoutingSignalsSnapshot, Option.isSome_none,
        Bool.false_eq_true, false_iff]
      rintro ⟨f2, q, hfe, hp⟩
      exact JVal.noConfusion hfe
    | vstr st =>
      simp only [sanitizeRoutingSignalsSnapshot, Option.isSome_none,
        Bool.false_eq_true, false_iff]
      rintro ⟨f2, q, hfe, hp⟩
      exact JVal.noConfusion hfe
    | varr l =>
      simp only [sanitizeRoutingSignalsSnapshot, Option.isSome_none,
        Bool.false_eq_true, false_iff]
      rintro ⟨f2, q, hfe, hp⟩
      exact JVal.noConfusion hfe
  · intro s hs
    cases v with
    | vobj fields =>
      rw [sanitizeRoutingSignalsSnapshot] at hs
      cases hg : parseNonNegativeNumber (jget fields (str "generatedAtMs")) with
      | none => rw [hg] at hs; exact absurd hs (by simp)
      | some g =>
        rw [hg] at hs
        have hx := Option.some.inj hs
        subst hx
        refine ⟨((parseNonNegativeNumber_some_iff _ g).mp hg).2, ?_, ?_, ?_⟩
        · cases hr : jget fields (str "routes") with
          | vobj rf =>
            simp only [hr]
            by_cases hl : (sanitizeRoutesMap rf).length > 0
            · rw [if_pos hl]
              intro hcontr
              have : sanitizeRoutesMap rf = [] := Option.some.inj hcontr
              rw [this] at hl
              simp at hl
            · rw [if_neg hl]
              simp
          | vundef => simp [hr]
          | vnull => simp [hr]
          | vbool b => simp [hr]
          | vnum n => simp [hr]
          | vstr st => simp [hr]
          | varr l => simp [hr]
        · cases hm : jget fields (str "models") with
          | vobj mf =>
            simp only [hm]
            by_cases hl : (sanitizeModelsMap mf).length > 0
            · rw [if_pos hl]
              intro hcontr
              have : sanitizeModelsMap mf = [] := Option.some.inj hcontr
              rw [this] at hl
              simp at hl
            · rw [if_neg hl]
              simp
          | vundef => simp [hm]
          | vnull => simp [hm]
          | vbool b => simp [hm]
          | vnum n => simp [hm]
          | vstr st => simp [hm]
          | varr l => simp [hm]
        · intro kv hkv
          cases hr : jget fields (str "routes") with
          | vobj rf =>
            simp only [hr] at hkv
            by_cases hl : (sanitizeRoutesMap rf).length > 0
            · rw [if_pos hl] at hkv
              simp only [Option.getD_some] at hkv
              rcases sanitizeRoutesMap_values rf kv hkv with ⟨raw, hraw⟩
              exact sanitizeRouteSignal_bounds hraw
            · rw [if_neg hl] at hkv
              simp at hkv
          | vundef => simp [hr] at hkv
          | vnull => simp [hr] at hkv
          | vbool b => simp [hr] at hkv
          | vnum n => simp [hr] at hkv
          | vstr st => simp [hr] at hkv
          | varr l => simp [hr] at hkv
    | vundef => exact absurd hs (by simp [sanitizeRoutingSignalsSnapshot])
    | vnull => exact absurd hs (by simp [sanitizeRoutingSignalsSnapshot])
    | vbool b => exact absurd hs (by simp [sanitizeRoutingSignalsSnapshot])
    | vnum n => exact absurd hs (by simp [sanitizeRoutingSignalsSnapshot])
    | vstr st => exact absurd hs (by simp [sanitizeRoutingSignalsSnapshot])
    | varr l => exact absurd hs (by simp [sanitizeRoutingSignalsSnapshot])
  · intro rfields sig h
    rw [sanitizeRoutingRouteSignal] at h
    cases hobs : parseNonNegativeNumber (jget rfields (str "observedAtMs")) with
    | none => rw [hobs] at h; exact absurd h (by simp)
    | some obs =>
      rw [hobs] at h
      have hx := Option.some.inj h
      subst hx
      refine ⟨rfl, ?_⟩
      intro q hq
      exact (parseUnitIntervalNumber_some_iff _ q).mp hq

/-- Witness for C7 at a concrete snapshot with one route entry. -/
theorem sanitizeSnapshot_spec_witness :
    0 ≤ exSnap0.generatedAtMs ∧ exSnap0.routes ≠ some [] ∧ exSnap0.models ≠ some [] ∧
    ∀ kv ∈ exSnap0.routes.getD [], 0 ≤ kv.2.observedAtMs ∧
      (∀ q, kv.2.errorRate = some q → 0 ≤ q ∧ q ≤ 1) ∧
      (∀ q, kv.2.fallbackRate = some q → 0 ≤ q ∧ q ≤ 1) ∧
      (∀ q, kv.2.uptime = some q → 0 ≤ q ∧ q ≤ 1) :=
  (sanitizeSnapshot_spec exSnap).2.1 exSnap0 (by decide)

/-! ### Arithmetic wrapper correctness -/

theorem qadd_eq (a b : ℚ) : qadd a b = a + b := by
  rw [qadd, Rat.add_def']

theorem qsub_eq (a b : ℚ) : qsub a b = a - b := by
  rw [qsub, Rat.sub_def']

theorem qmul_eq (a b : ℚ) : qmul a b = a * b := by
  rw [qmul, Rat.mul_def, Rat.normalize_eq_mkRat]

theorem qdiv_eq (a b : ℚ) : qdiv a b = a / b := by
  rw [qdiv, Rat.div_def']

/-- C6 counterexample: the claim fails as stated.  The task-floor value
`2.5` is not integer-like (its reduced denominator is 2), yet the
sanitizer retains it: the source validates only the `[1, 5]` range, not
`Number.isInteger`. -/
theorem sanitizeOverride_non_integer_floor_counterexample :
    sanitizeRoutingModePolicyOverride (.vobj [(str "taskFloors",
        .vobj [(str "code", .vnum (.fin (mkRat 5 2)))])]) =
      some ⟨none, none, some ⟨some (mkRat 5 2), none, none⟩, none⟩ ∧
    (mkRat 5 2).den ≠ 1 := by
  decide

/-- C6 (amended): a `taskFloors` entry for a known task type is retained
exactly when its value is a finite number in `[1, 5]` (integrality is not
checked); values outside `[1, 5]` or non-finite are dropped; and the
sanitizer returns absent when, after dropping invalid fields, no valid
field remains. -/
theorem sanitizeOverride_taskFloors (v : JVal) :
    (∀ va q, parseTaskFloor va = some q ↔ va = .vnum (.fin q) ∧ 1 ≤ q ∧ q ≤ 5) ∧
    (∀ ov fl t q, sanitizeRoutingModePolicyOverride v = some ov →
      ov.taskFloors = some fl → fl.get t = some q → 1 ≤ q ∧ q ≤ 5) ∧
    (∀ ov, sanitizeRoutingModePolicyOverride v = some ov →
      ov.complexityBias.isSome = true ∨ ov.constraints.isSome = true ∨
      ov.taskFloors.isSome = true ∨ ov.weights.isSome = true) ∧
    (∀ fields, v = .vobj fields →
      ∀ fl, parseTaskFloorsOv (jget fields (str "taskFloors")) = some fl →
      ∃ tf, jget fields (str "taskFloors") = .vobj tf ∧
        fl = ⟨parseTaskFloor (jget tf (str "code")),
          parseTaskFloor (jget tf (str "vision")),
          parseTaskFloor (jget tf (str "text"))⟩) ∧
    sanitizeRoutingModePolicyOverride (.vobj [(str "taskFloors",
      .vobj [(str "code", .vnum (.fin 7)), (str "vision", .vnum .nan)])]) = none := by
  have hfl : ∀ fl, ∀ w : JVal, parseTaskFloorsOv w = some fl →
      ∃ tf, w = .vobj tf ∧
        fl = ⟨parseTaskFloor (jget tf (str "code")),
          parseTaskFloor (jget tf (str "vision")),
          parseTaskFloor (jget tf (str "text"))⟩ := by
    intro fl w hw
    cases w with
    | vobj tf =>
      rw [parseTaskFloorsOv] at hw
      split at hw
      · exact ⟨tf, rfl, (Option.some.inj hw).symm⟩
      · exact absurd hw (by simp)
    | vundef => exact absurd hw (by simp [parseTaskFloorsOv])
    | vnull => exact absurd hw (by simp [parseTaskFloorsOv])
    | vbool b => exact absurd hw (by simp [parseTaskFloorsOv])
    | vnum n => exact absurd hw (by simp [parseTaskFloorsOv])
    | vstr st => exact absurd hw (by simp [parseTaskFloorsOv])
    | varr l => exact absurd hw (by simp [parseTaskFloorsOv])
  refine ⟨parseTaskFloor_some_iff, ?_, ?_, ?_, by decide⟩
  · intro ov fl t q hs hf hq
    cases v with
    | vobj fields =>
      rw [sanitizeRoutingModePolicyOverride] at hs
      split at hs
      · have hov := Option.some.inj hs
        subst hov
        simp only at hf
        rcases hfl fl _ hf with ⟨tf, htf, hfe⟩
        subst hfe
        cases t with
        | code =>
          simp only [TaskQMap.get] at hq
          exact ((parseTaskFloor_some_iff _ q).mp hq).2
        | vision =>
          simp only [TaskQMap.get] at hq
          exact ((parseTaskFloor_some_iff _ q).mp hq).2
        | text =>
          simp only [TaskQMap.get] at hq
          exact ((parseTaskFloor_some_iff _ q).mp hq).2
      · exact absurd hs (by simp)
    | vundef => exact absurd hs (by simp [sanitizeRoutingModePolicyOverride])
    | vnull => exact absurd hs (by simp [sanitizeRoutingModePolicyOverride])
    | vbool b => exact absurd hs (by simp [sanitizeRoutingModePolicyOverride])
    | vnum n => exact absurd hs (by simp [sanitizeRoutingModePolicyOverride])
    | vstr st => exact absurd hs (by simp [sanitizeRoutingModePolicyOverride])
    | varr l => exact absurd hs (by simp [sanitizeRoutingModePolicyOverride])
  · intro ov hs
    cases v with
    | vobj fields =>
      rw [sanitizeRoutingModePolicyOverride] at hs
      split at hs
      · have hov := Option.some.inj hs
        subst hov
        rename_i hcond
        have hc2 := hcond
        simp only [Bool.or_eq_true] at hc2
        tauto
      · exact absurd hs (by simp)
    | vundef => exact absurd hs (by simp [sanitizeRoutingModePolicyOverride])
    | vnull => exact absurd hs (by simp [sanitizeRoutingModePolicyOverride])
    | vbool b => exact absurd hs (by simp [sanitizeRoutingModePolicyOverride])
    | vnum n => exact absurd hs (by simp [sanitizeRoutingModePolicyOverride])
    | vstr st => exact absurd hs (by simp [sanitizeRoutingModePolicyOverride])
    | varr l => exact absurd hs (by simp [sanitizeRoutingModePolicyOverride])
  · intro fields hv fl hw
    exact hfl fl _ hw

/-- Witness for C6 at the 2.5 task floor. -/
theorem sanitizeOverride_taskFloors_witness :
    1 ≤ mkRat 5 2 ∧ mkRat 5 2 ≤ 5 :=
  (sanitizeOverride_taskFloors (.vobj [(str "taskFloors",
      .vobj [(str "code", .vnum (.fin (mkRat 5 2)))])])).2.1
    ⟨none, none, some ⟨some (mkRat 5 2), none, none⟩, none⟩
    ⟨some (mkRat 5 2), none, none⟩ .code (mkRat 5 2)
    (by decide) (by decide) (by decide)

/-! ### Claim C9: override template round-trip -/

/-- C9: parsing the generated override template round-trips: applied to
the wrapped template object, `parseModelMatrixOverrides` recovers an
override map structurally equal to the base matrix content, entry for
entry, with nothing dropped or altered. -/
theorem template_overrides_roundtrip :
    parseModelMatrixOverridesJ createModelMatrixOverrideTemplate =
      some (MODEL_MATRIX.map (fun p => (p.1, some p.2))) := by
  decide

/-! ### Claim C10: pool invariants -/

theorem filterMap_resolved_sublist (f : ResolvedModel → Option ScoredCandidate)
    (hf : ∀ r c, f r = some c → c.resolved = r) :
    ∀ pool : List ResolvedModel,
      List.Sublist ((pool.filterMap f).map (·.resolved)) pool
  | [] => by simp
  | r :: t => by
    rw [List.filterMap_cons]
    cases hc : f r with
    | none => exact (filterMap_resolved_sublist f hf t).cons r
    | some c =>
      simp only [List.map_cons]
      rw [hf r c hc]
      exact (filterMap_resolved_sublist f hf t).cons₂ r

theorem candidatesFromPool_f_resolved (registry : List RegistryModel)
    (gr : Str → Option ModelRatings) (gap : Str → Option ModelArenaScores)
    (r : ResolvedModel) (c : ScoredCandidate)
    (h : (fun resolved =>
      match gr resolved.id with
      | none => none
      | some ratings =>
        match objGet (buildCostIndex registry) (resolved.provider ++ '/' :: resolved.id) with
        | none => none
        | some effectiveCost => some {
            arenaScores := gap resolved.id,
            effectiveCost := effectiveCost,
            ratings := ratings,
            resolved := resolved }) r = some c) :
    c.resolved = r ∧ (gr r.id).isSome ∧
      (objGet (buildCostIndex registry) (r.provider ++ '/' :: r.id)).isSome := by
  simp only [] at h
  split at h
  · exact Option.noConfusion h
  · split at h
    · exact Option.noConfusion h
    · refine ⟨?_, ?_, ?_⟩
      · rw [← Option.some.inj h]
      · simp [*]
      · simp [*]

theorem candidatesFromPool_sublist (registry : List RegistryModel)
    (gr : Str → Option ModelRatings) (gap : Str → Option ModelArenaScores)
    (pool : List ResolvedModel) :
    List.Sublist ((candidatesFromPool registry pool gr gap).map (·.resolved)) pool := by
  exact filterMap_resolved_sublist _
    (fun r c h => (candidatesFromPool_f_resolved registry gr gap r c h).1) pool

theorem allCandidatesOf_sublist (registry : List RegistryModel) (opts : SelectionOptions)
    (pool : List ResolvedModel) (hp : opts.pool = some pool) :
    List.Sublist ((allCandidatesOf registry opts).map (·.resolved)) pool := by
  unfold allCandidatesOf
  rw [hp]
  exact candidatesFromPool_sublist registry _ _ pool

theorem selectModels_subperm_candidates (registry : List RegistryModel)
    (cls : ClassificationResult) (cp : CostPreference) (opts : SelectionOptions) :
    List.Subperm (selectModels registry cls cp (some (.inr opts)))
      ((allCandidatesOf registry opts).map (·.resolved)) := by
  cases hrm : opts.routingMode with
  | none =>
    simp only [selectModels, hrm]
    split
    · exact List.nil_subperm
    · have h1 := ((stableSort_perm (fun a b =>
        decide (cmpLegacy cp cls.type cls.complexity
          (buildProviderPreferenceMap opts.preferredProviders) a b ≤ 0))
        (List.filter (fun candidate =>
          match candidate.ratings.get cls.type with
          | some rating => decide (cls.complexity ≤ rating)
          | none => false) (allCandidatesOf registry opts))).map
          (fun x : ScoredCandidate => x.resolved)).subperm
      have h2 := ((List.filter_sublist (p := fun candidate =>
          match candidate.ratings.get cls.type with
          | some rating => decide (cls.complexity ≤ rating)
          | none => false) (allCandidatesOf registry opts)).map
        (fun x : ScoredCandidate => x.resolved)).subperm
      exact h1.trans h2
  | some mode =>
    simp only [selectModels, hrm]
    split
    · exact List.nil_subperm
    · have h1 := ((stableSort_perm (fun a b =>
        decide (cmpMode (modeTieBreakPreference mode cp)
          (buildProviderPreferenceMap opts.preferredProviders) a b ≤ 0))
        ((if (List.filter (fun candidate =>
              passesModeConstraints candidate (effectivePolicyOf opts mode)
                (sanitizeRoutingSignalsSnapshot opts.routingSignals))
              (capableCandidatesOf registry opts mode cls)).length > 0 then
            List.filter (fun candidate =>
              passesModeConstraints candidate (effectivePolicyOf opts mode)
                (sanitizeRoutingSignalsSnapshot opts.routingSignals))
              (capableCandidatesOf registry opts mode cls)
          else capableCandidatesOf registry opts mode cls).map (fun candidate =>
            toModeScored candidate
              (computeModeScore candidate cls.type (effectivePolicyOf opts mode)
                (sanitizeRoutingSignalsSnapshot opts.routingSignals))))).map
          (fun x : ModeScoredCandidate => x.resolved)).subperm
      have hsp : List.Sublist
          (if (List.filter (fun candidate =>
              passesModeConstraints candidate (effectivePolicyOf opts mode)
                (sanitizeRoutingSignalsSnapshot opts.routingSignals))
              (capableCandidatesOf registry opts mode cls)).length > 0 then
            List.filter (fun candidate =>
              passesModeConstraints candidate (effectivePolicyOf opts mode)
                (sanitizeRoutingSignalsSnapshot opts.routingSignals))
              (capableCandidatesOf registry opts mode cls)
          else capableCandidatesOf registry opts mode cls)
          (capableCandidatesOf registry opts mode cls) := by
        split
        · exact List.filter_sublist _
        · exact List.Sublist.refl _
      have h2 := ((hsp.trans (List.filter_sublist _)).map
        (fun c : ScoredCandidate => c.resolved)).subperm
      refine h1.trans (List.Subperm.trans ?_ h2)
      rw [List.map_map]
      exact List.Perm.subperm (List.Perm.refl _)

/-- C10: with a supplied pool the selector filters and reorders but
never invents or duplicates: every returned model is a pool element,
each pool element is returned at most as often as it occurs in the pool,
and a pool element without a matrix rating for the effective lookup or
without a registry cost entry is never returned. -/
theorem selectModels_pool_invariants (registry : List RegistryModel)
    (cls : ClassificationResult) (cp : CostPreference) (opts : SelectionOptions)
    (pool : List ResolvedModel) (hp : opts.pool = some pool) :
    (∀ r ∈ selectModels registry cls cp (some (.inr opts)), r ∈ pool) ∧
    (∀ r : ResolvedModel,
      (selectModels registry cls cp (some (.inr opts))).count r ≤ pool.count r) ∧
    (∀ r ∈ pool,
      (createModelRatingsLookup opts.matrixOverrides r.id = none ∨
        objGet (buildCostIndex registry) (r.provider ++ '/' :: r.id) = none) →
      r ∉ selectModels registry cls cp (some (.inr opts))) := by
  have hsub : List.Subperm (selectModels registry cls cp (some (.inr opts))) pool :=
    (selectModels_subperm_candidates registry cls cp opts).trans
      ((allCandidatesOf_sublist registry opts pool hp).subperm)
  refine ⟨fun r hr => hsub.subset hr, fun r => hsub.count_le r, ?_⟩
  intro r _ h hmem
  have h1 := (selectModels_subperm_candidates registry cls cp opts).subset hmem
  rcases List.mem_map.mp h1 with ⟨c, hc, hcr⟩
  have hc' : c ∈ pool.filterMap (fun resolved =>
      match createModelRatingsLookup opts.matrixOverrides resolved.id with
      | none => none
      | some ratings =>
        match objGet (buildCostIndex registry) (resolved.provider ++ '/' :: resolved.id) with
        | none => none
        | some effectiveCost => some {
            arenaScores := createModelArenaPriorsLookup resolved.id,
            effectiveCost := effectiveCost,
            ratings := ratings,
            resolved := resolved }) := by
    have hall : allCandidatesOf registry opts =
        candidatesFromPool registry pool
          (createModelRatingsLookup opts.matrixOverrides) createModelArenaPriorsLookup := by
      unfold allCandidatesOf
      rw [hp]
    rw [hall] at hc
    exact hc
  rcases List.mem_filterMap.mp hc' with ⟨x, _, hfx⟩
  obtain ⟨hres, hgr, hcost⟩ := candidatesFromPool_f_resolved registry
    (createModelRatingsLookup opts.matrixOverrides) createModelArenaPriorsLookup x c hfx
  have hxr : x = r := by rw [← hres, hcr]
  rw [hxr] at hgr hcost
  rcases h with h | h
  · rw [h] at hgr
    exact Bool.noConfusion hgr
  · rw [h] at hcost
    exact Bool.noConfusion hcost

/-- Concrete instance of the count bound from the pool-invariants
theorem. -/
theorem selectModels_pool_invariants_witness :
    (selectModels c5Registry c5Cls .balanced (some (.inr c5Opts))).count c5A ≤
      c5Pool.count c5A :=
  (selectModels_pool_invariants c5Registry c5Cls .balanced c5Opts c5Pool rfl).2.1 c5A

/-! ### Claim C4: hard constraints and the constraint-empty fallback -/

theorem matchViol_iff (x y : Option ℚ) (f : ℚ → ℚ → Bool) :
    (match x, y with
      | some a, some b => f a b
      | _, _ => false) = true ↔ ∃ a b, x = some a ∧ y = some b ∧ f a b = true := by
  rcases x with _ | a <;> rcases y with _ | b <;> simp

theorem if3_false_iff (a b c : Bool) :
    (if a = true then false else if b = true then false
     else if c = true then false else true) = false ↔
      (a = true ∨ b = true ∨ c = true) := by
  rcases a <;> rcases b <;> rcases c <;> simp

theorem passesModeConstraints_false_iff (candidate : ScoredCandidate)
    (policy : RoutingModePolicy) (signals : Option RoutingSignalsSnapshot) :
    passesModeConstraints candidate policy signals = false ↔
      ∃ rs, getRouteSignal candidate signals = some rs ∧
        ((∃ maxL v, policy.constraints.maxLatencyP90Ms = some maxL ∧
            rs.latencyP90Ms = some v ∧ maxL < v) ∨
         (∃ maxE v, policy.constraints.maxErrorRate = some maxE ∧
            rs.errorRate = some v ∧ maxE < v) ∨
         (∃ minU v, policy.constraints.minUptime = some minU ∧
            rs.uptime = some v ∧ v < minU)) := by
  unfold passesModeConstraints
  cases hgs : getRouteSignal candidate signals with
  | none => simp
  | some rs =>
    simp only [Option.some.injEq]
    constructor
    · intro h
      refine ⟨rs, rfl, ?_⟩
      rcases if3_false_iff _ _ _ |>.mp h with hv | hv | hv
      · exact Or.inl (by
          rcases (matchViol_iff _ _ _).mp hv with ⟨a, b, h1, h2, h3⟩
          exact ⟨a, b, h1, h2, of_decide_eq_true h3⟩)
      · exact Or.inr (Or.inl (by
          rcases (matchViol_iff _ _ _).mp hv with ⟨a, b, h1, h2, h3⟩
          exact ⟨a, b, h1, h2, of_decide_eq_true h3⟩))
      · exact Or.inr (Or.inr (by
          rcases (matchViol_iff _ _ _).mp hv with ⟨a, b, h1, h2, h3⟩
          exact ⟨a, b, h1, h2, of_decide_eq_true h3⟩))
    · rintro ⟨rs', hrs, hv⟩
      rw [← hrs] at hv
      refine (if3_false_iff _ _ _).mpr ?_
      rcases hv with ⟨a, b, h1, h2, h3⟩ | ⟨a, b, h1, h2, h3⟩ | ⟨a, b, h1, h2, h3⟩
      · exact Or.inl ((matchViol_iff _ _ _).mpr ⟨a, b, h1, h2, decide_eq_true h3⟩)
      · exact Or.inr (Or.inl ((matchViol_iff _ _ _).mpr ⟨a, b, h1, h2, decide_eq_true h3⟩))
      · exact Or.inr (Or.inr ((matchViol_iff _ _ _).mpr ⟨a, b, h1, h2, decide_eq_true h3⟩))

theorem selectModels_all_fail_fallback (registry : List RegistryModel)
    (cls : ClassificationResult) (cp : CostPreference) (opts : SelectionOptions)
    (mode : RoutingMode) (hrm : opts.routingMode = some mode)
    (hne : capableCandidatesOf registry opts mode cls ≠ [])
    (hall : ∀ c ∈ capableCandidatesOf registry opts mode cls,
      passesModeConstraints c (effectivePolicyOf opts mode)
        (sanitizeRoutingSignalsSnapshot opts.routingSignals) = false) :
    List.Perm (selectModels registry cls cp (some (.inr opts)))
      ((capableCandidatesOf registry opts mode cls).map (·.resolved)) := by
  simp only [selectModels, hrm]
  rw [if_neg (fun h => hne (List.length_eq_zero.mp h))]
  have hconstr : List.filter (fun candidate =>
      passesModeConstraints candidate (effectivePolicyOf opts mode)
        (sanitizeRoutingSignalsSnapshot opts.routingSignals))
      (capableCandidatesOf registry opts mode cls) = [] :=
    List.filter_eq_nil_iff.mpr (fun c hc => by simp [hall c hc])
  rw [hconstr]
  simp only [List.length_nil, gt_iff_lt, lt_irrefl, if_false]
  have h1 := ((stableSort_perm (fun a b =>
      decide (cmpMode (modeTieBreakPreference mode cp)
        (buildProviderPreferenceMap opts.preferredProviders) a b ≤ 0))
      ((capableCandidatesOf registry opts mode cls).map (fun candidate =>
        toModeScored candidate
          (computeModeScore candidate cls.type (effectivePolicyOf opts mode)
            (sanitizeRoutingSignalsSnapshot opts.routingSignals))))).map
        (fun x : ModeScoredCandidate => x.resolved))
  refine h1.trans ?_
  rw [List.map_map]
  exact List.Perm.refl _

/-- C4: a candidate fails hard constraints exactly when a matching route
telemetry signal exists and some declared constraint field is present
and violated; when every floor-passing candidate fails, the floor-only
set is scored and returned instead of an empty list; and the concrete
single candidate whose only telemetry violates `maxErrorRate` is still
returned. -/
theorem selectModels_constraint_fallback :
    (∀ (candidate : ScoredCandidate) (policy : RoutingModePolicy)
        (signals : Option RoutingSignalsSnapshot),
      passesModeConstraints candidate policy signals = false ↔
        ∃ rs, getRouteSignal candidate signals = some rs ∧
          ((∃ maxL v, policy.constraints.maxLatencyP90Ms = some maxL ∧
              rs.latencyP90Ms = some v ∧ maxL < v) ∨
           (∃ maxE v, policy.constraints.maxErrorRate = some maxE ∧
              rs.errorRate = some v ∧ maxE < v) ∨
           (∃ minU v, policy.constraints.minUptime = some minU ∧
              rs.uptime = some v ∧ v < minU))) ∧
    (∀ (registry : List RegistryModel) (cls : ClassificationResult)
        (cp : CostPreference) (opts : SelectionOptions) (mode : RoutingMode),
      opts.routingMode = some mode →
      capableCandidatesOf registry opts mode cls ≠ [] →
      (∀ c ∈ capableCandidatesOf registry opts mode cls,
        passesModeConstraints c (effectivePolicyOf opts mode)
          (sanitizeRoutingSignalsSnapshot opts.routingSignals) = false) →
      List.Perm (selectModels registry cls cp (some (.inr opts)))
        ((capableCandidatesOf registry opts mode cls).map (·.resolved))) ∧
    selectModels c4Registry c4Cls .balanced (some (.inr c4Opts)) = c4Pool :=
  ⟨passesModeConstraints_false_iff,
   fun registry cls cp opts mode => selectModels_all_fail_fallback registry cls cp opts mode,
   by decide⟩

/-- Concrete instance of the fallback conjunct: the single candidate
whose telemetry violates the balanced error-rate constraint is still the
(whole) scored result. -/
theorem selectModels_constraint_fallback_witness :
    List.Perm (selectModels c4Registry c4Cls .balanced (some (.inr c4Opts)))
      ((capableCandidatesOf c4Registry c4Opts .balanced c4Cls).map (·.resolved)) :=
  selectModels_constraint_fallback.2.1 c4Registry c4Cls .balanced c4Opts .balanced rfl
    (by decide) (by decide)

/-! ### Claim C5: legacy balanced ordering -/

theorem prioDiff_nonpos_iff (pm : Obj ℕ) (pa pb : Str) :
    prioDiff pm pa pb ≤ 0 ↔ providerPriority pm pa ≤ providerPriority pm pb := by
  unfold prioDiff providerPriority
  rcases h1 : objGet pm pa with _ | i <;> rcases h2 : objGet pm pb with _ | j
  · simp
  · simp only []
    constructor
    · intro h
      exact absurd h (by norm_num)
    · intro h
      exact absurd (WithTop.top_le_iff.mp h) (WithTop.coe_ne_top)
  · simp only []
    constructor
    · intro _
      exact le_top
    · intro _
      norm_num
  · simp only []
    rw [Rat.mkRat_one]
    constructor
    · intro h
      have h' : (i : ℤ) - (j : ℤ) ≤ 0 := by exact_mod_cast h
      have hij : i ≤ j := by exact_mod_cast (by omega : (i : ℤ) ≤ (j : ℤ))
      exact WithTop.coe_le_coe.mpr hij
    · intro h
      have hij : i ≤ j := WithTop.coe_le_coe.mp h
      have h' : (i : ℤ) - (j : ℤ) ≤ 0 := by omega
      exact_mod_cast h'

theorem costPrio_nonpos_iff (pm : Obj ℕ) (a b : ScoredCandidate) :
    ((if qsub a.effectiveCost b.effectiveCost ≠ 0 then qsub a.effectiveCost b.effectiveCost
      else prioDiff pm a.resolved.provider b.resolved.provider) ≤ 0) ↔
    (a.effectiveCost < b.effectiveCost ∨
      (a.effectiveCost = b.effectiveCost ∧
        providerPriority pm a.resolved.provider ≤ providerPriority pm b.resolved.provider)) := by
  rw [qsub_eq]
  by_cases hc : a.effectiveCost - b.effectiveCost = 0
  · rw [if_neg (not_not.mpr hc), prioDiff_nonpos_iff]
    have hab : a.effectiveCost = b.effectiveCost := sub_eq_zero.mp hc
    constructor
    · intro h
      exact Or.inr ⟨hab, h⟩
    · rintro (h | ⟨_, h⟩)
      · rw [hab] at h
        exact absurd h (lt_irrefl _)
      · exact h
  · rw [if_pos hc]
    have hne : a.effectiveCost ≠ b.effectiveCost := fun h => hc (by rw [h]; ring)
    constructor
    · intro h
      exact Or.inl (lt_of_le_of_ne (by linarith [sub_nonpos.mp h]) hne)
    · rintro (h | ⟨heq, _⟩)
      · linarith
      · exact absurd heq hne

theorem exactRank_cast (t : TaskType) (c : ℚ) (a : ScoredCandidate) :
    (if a.ratings.get t = some c then (0 : ℚ) else 1) = (exactRank t c a : ℚ) := by
  unfold exactRank
  split <;> simp

theorem cmpLegacy_balanced_nonpos_iff (t : TaskType) (c : ℚ) (pm : Obj ℕ)
    (a b : ScoredCandidate) :
    cmpLegacy .balanced t c pm a b ≤ 0 ↔ balancedLe t c pm a b := by
  unfold balancedLe
  show ((if (if a.ratings.get t = some c then (0:ℚ) else 1) ≠
          (if b.ratings.get t = some c then (0:ℚ) else 1) then
        qsub (if a.ratings.get t = some c then (0:ℚ) else 1)
          (if b.ratings.get t = some c then (0:ℚ) else 1)
      else
        if qsub a.effectiveCost b.effectiveCost ≠ 0 then qsub a.effectiveCost b.effectiveCost
        else prioDiff pm a.resolved.provider b.resolved.provider) ≤ 0) ↔ _
  rw [exactRank_cast t c a, exactRank_cast t c b]
  rcases Nat.lt_trichotomy (exactRank t c a) (exactRank t c b) with hlt | heq | hgt
  · rw [if_pos (by exact_mod_cast Nat.ne_of_lt hlt)]
    refine iff_of_true ?_ (Or.inl hlt)
    rw [qsub_eq, sub_nonpos]
    exact_mod_cast Nat.le_of_lt hlt
  · rw [if_neg (by exact_mod_cast not_not.mpr heq), costPrio_nonpos_iff]
    simp [heq]
  · rw [if_pos (by exact_mod_cast Nat.ne_of_gt hgt)]
    refine iff_of_false ?_ ?_
    · rw [qsub_eq, sub_nonpos]
      intro h
      exact absurd (by exact_mod_cast h) (Nat.not_le_of_lt hgt)
    · rintro (h | ⟨heq, _⟩)
      · exact absurd h (Nat.lt_asymm hgt)
      · exact absurd heq (Nat.ne_of_gt hgt)

theorem balancedLe_total (t : TaskType) (c : ℚ) (pm : Obj ℕ) (a b : ScoredCandidate) :
    balancedLe t c pm a b ∨ balancedLe t c pm b a := by
  unfold balancedLe
  rcases Nat.lt_trichotomy (exactRank t c a) (exactRank t c b) with h | h | h
  · exact Or.inl (Or.inl h)
  · rcases lt_trichotomy a.effectiveCost b.effectiveCost with hc | hc | hc
    · exact Or.inl (Or.inr ⟨h, Or.inl hc⟩)
    · rcases le_total (providerPriority pm a.resolved.provider)
        (providerPriority pm b.resolved.provider) with hp | hp
      · exact Or.inl (Or.inr ⟨h, Or.inr ⟨hc, hp⟩⟩)
      · exact Or.inr (Or.inr ⟨h.symm, Or.inr ⟨hc.symm, hp⟩⟩)
    · exact Or.inr (Or.inr ⟨h.symm, Or.inl hc⟩)
  · exact Or.inr (Or.inl h)

theorem balancedLe_trans (t : TaskType) (c : ℚ) (pm : Obj ℕ) (a b d : ScoredCandidate)
    (h1 : balancedLe t c pm a b) (h2 : balancedLe t c pm b d) : balancedLe t c pm a d := by
  unfold balancedLe at *
  rcases h1 with h1 | ⟨h1e, h1c⟩
  · rcases h2 with h2 | ⟨h2e, _⟩
    · exact Or.inl (h1.trans h2)
    · exact Or.inl (h2e ▸ h1)
  · rcases h2 with h2 | ⟨h2e, h2c⟩
    · exact Or.inl (h1e ▸ h2)
    · refine Or.inr ⟨h1e.trans h2e, ?_⟩
      rcases h1c with h1c | ⟨h1ce, h1p⟩
      · rcases h2c with h2c | ⟨h2ce, _⟩
        · exact Or.inl (h1c.trans h2c)
        · exact Or.inl (h2ce ▸ h1c)
      · rcases h2c with h2c | ⟨h2ce, h2p⟩
        · exact Or.inl (h1ce ▸ h2c)
        · exact Or.inr ⟨h1ce.trans h2ce, h1p.trans h2p⟩

theorem sortLegacy_balanced_perm_sorted (candidates : List ScoredCandidate)
    (t : TaskType) (c : ℚ) (pm : Obj ℕ) :
    List.Perm (sortLegacy candidates .balanced t c pm) candidates ∧
      (sortLegacy candidates .balanced t c pm).Pairwise (balancedLe t c pm) := by
  constructor
  · exact stableSort_perm _ _
  · have hs := sorted_stableSort
      (fun a b => decide (cmpLegacy .balanced t c pm a b ≤ 0))
      (fun a b => by
        rcases balancedLe_total t c pm a b with h | h
        · simp [decide_eq_true ((cmpLegacy_balanced_nonpos_iff t c pm a b).mpr h)]
        · simp [decide_eq_true ((cmpLegacy_balanced_nonpos_iff t c pm b a).mpr h)])
      (fun a b d hab hbd => decide_eq_true
        ((cmpLegacy_balanced_nonpos_iff t c pm a d).mpr
          (balancedLe_trans t c pm a b d
            ((cmpLegacy_balanced_nonpos_iff t c pm a b).mp (of_decide_eq_true hab))
            ((cmpLegacy_balanced_nonpos_iff t c pm b d).mp (of_decide_eq_true hbd)))))
      candidates
    exact hs.imp (fun hab =>
      (cmpLegacy_balanced_nonpos_iff t c pm _ _).mp (of_decide_eq_true hab))

theorem selectModels_legacy_eq (registry : List RegistryModel)
    (cls : ClassificationResult) (cp : CostPreference) (opts : SelectionOptions)
    (hrm : opts.routingMode = none) :
    selectModels registry cls cp (some (.inr opts)) =
      (sortLegacy ((allCandidatesOf registry opts).filter (fun candidate =>
          match candidate.ratings.get cls.type with
          | some rating => decide (cls.complexity ≤ rating)
          | none => false)) cp cls.type cls.complexity
        (buildProviderPreferenceMap opts.preferredProviders)).map (·.resolved) := by
  simp only [selectModels, hrm]
  split
  · rename_i h
    rw [List.length_eq_zero.mp h]
    rfl
  · rfl

/-- C5: in the legacy path with cost preference `balanced`, the result
is a permutation of the floor-filtered candidates ordered by the
exact-match-first / ascending-cost / provider-preference lexicographic
order; the legacy path is exactly `sortLegacy` over the filtered
candidates; and in the concrete scenario the cheap exact-match `code:3`
model ranks before the expensive `code:5` model. -/
theorem sortLegacy_balanced_order :
    (∀ (candidates : List ScoredCandidate) (t : TaskType) (c : ℚ) (pm : Obj ℕ),
      List.Perm (sortLegacy candidates .balanced t c pm) candidates ∧
        (sortLegacy candidates .balanced t c pm).Pairwise (balancedLe t c pm)) ∧
    (∀ (registry : List RegistryModel) (cls : ClassificationResult)
        (cp : CostPreference) (opts : SelectionOptions),
      opts.routingMode = none →
      selectModels registry cls cp (some (.inr opts)) =
        (sortLegacy ((allCandidatesOf registry opts).filter (fun candidate =>
            match candidate.ratings.get cls.type with
            | some rating => decide (cls.complexity ≤ rating)
            | none => false)) cp cls.type cls.complexity
          (buildProviderPreferenceMap opts.preferredProviders)).map (·.resolved)) ∧
    selectModels c5Registry c5Cls .balanced (some (.inr c5Opts)) = [c5B, c5A] :=
  ⟨sortLegacy_balanced_perm_sorted, selectModels_legacy_eq, by decide⟩

/-- Concrete instance of the legacy-path equation from the balanced
ordering theorem. -/
theorem sortLegacy_balanced_order_witness :
    selectModels c5Registry c5Cls .balanced (some (.inr c5Opts)) =
      (sortLegacy ((allCandidatesOf c5Registry c5Opts).filter (fun candidate =>
          match candidate.ratings.get c5Cls.type with
          | some rating => decide (c5Cls.complexity ≤ rating)
          | none => false)) .balanced c5Cls.type c5Cls.complexity
        (buildProviderPreferenceMap c5Opts.preferredProviders)).map (·.resolved) :=
  sortLegacy_balanced_order.2.1 c5Registry c5Cls .balanced c5Opts rfl
